import Mathlib

/-!
# script.js : first-person target shooter

A shallow embedding of `script.js`.  JavaScript numbers are modelled as the
elements of a linearly ordered field `F` (exact arithmetic: rounding, NaN and
the infinities are not modelled; a division by zero yields `0` as in every
field of Mathlib).  The host functions `Math.sin`, `Math.cos`, `Math.tan` and
the constant `Math.PI` are not part of the script: they are taken as a
parameter `M : JSMath F`, and each theorem lists the facts about them it
relies on.  Instantiating `F` with the real numbers and `M` with
`Real.sin`, `Real.cos`, `Real.tan`, `Real.pi` gives the intended reading.
`Math.random()` is modelled by passing the drawn numbers as arguments, and
`setTimeout` by a list of pending timer records.
-/

namespace Script

/-- The host `Math` object, as far as the script uses it. -/
structure JSMath (F : Type) where
  sin : F → F
  cos : F → F
  tan : F → F
  PI : F

/-- The `player` object (lines 14-21). -/
structure Player (F : Type) where
  x : F
  y : F
  z : F
  yaw : F
  pitch : F
  speed : F

/-- An element of `environment` (lines 24-28). -/
structure Box (F : Type) where
  x : F
  y : F
  z : F
  w : F
  h : F
  d : F

/-- An element of `targets` (lines 31-35). -/
structure Target (F : Type) where
  x : F
  y : F
  z : F
  alive : Bool

/-- The two properties of `canvas` the script reads and writes. -/
structure Canvas (F : Type) where
  width : F
  height : F

/-- The object returned by `worldToScreen` when it is not `null`. -/
structure ScreenPoint (F : Type) where
  x : F
  y : F
  depth : F

section Geometry

variable {F : Type} [LinearOrderedField F]

/-- The camera-space depth coordinate `zz2` computed on lines 165-171. -/
def camZ (M : JSMath F) (player : Player F) (wx wy wz : F) : F :=
  let dx := wx - player.x
  let dy := wy - player.y
  let dz := wz - player.z
  let zz := dx * M.sin player.yaw + dz * M.cos player.yaw
  dy * M.sin player.pitch + zz * M.cos player.pitch

/-- The camera-space coordinate `xz` computed on line 168. -/
def camX (M : JSMath F) (player : Player F) (wx _wy wz : F) : F :=
  let dx := wx - player.x
  let dz := wz - player.z
  dx * M.cos player.yaw - dz * M.sin player.yaw

/-- The camera-space coordinate `yz` computed on line 170. -/
def camY (M : JSMath F) (player : Player F) (wx wy wz : F) : F :=
  let dx := wx - player.x
  let dy := wy - player.y
  let dz := wz - player.z
  let zz := dx * M.sin player.yaw + dz * M.cos player.yaw
  dy * M.cos player.pitch - zz * M.sin player.pitch

/-- The function `worldToScreen` (lines 164-178); `none` is `null`. -/
def worldToScreen (M : JSMath F) (player : Player F) (canvas : Canvas F)
    (wx wy wz : F) : Option (ScreenPoint F) :=
  let dx := wx - player.x
  let dy := wy - player.y
  let dz := wz - player.z
  let xz := dx * M.cos player.yaw - dz * M.sin player.yaw
  let zz := dx * M.sin player.yaw + dz * M.cos player.yaw
  let yz := dy * M.cos player.pitch - zz * M.sin player.pitch
  let zz2 := dy * M.sin player.pitch + zz * M.cos player.pitch
  if zz2 > 0 then none
  else
    let fov : F := 1.2
    let scale := canvas.height / (2 * M.tan (fov / 2))
    let sx := canvas.width / 2 + xz * scale / -zz2
    let sy := canvas.height / 2 + yz * scale / -zz2
    some { x := sx, y := sy, depth := -zz2 }

/-- The forward direction `(dx, dy, dz)` of lines 76-78. -/
def aimDir (M : JSMath F) (player : Player F) : F × F × F :=
  (-M.sin player.yaw * M.cos player.pitch,
   M.sin player.pitch,
   -M.cos player.yaw * M.cos player.pitch)

/-- The ray parameter `t` of line 82. -/
def aimT (M : JSMath F) (player : Player F) (target : Target F) : F :=
  let dx := -M.sin player.yaw * M.cos player.pitch
  let dy := M.sin player.pitch
  let dz := -M.cos player.yaw * M.cos player.pitch
  let tx := target.x - player.x
  let ty := target.y - player.y
  let tz := target.z - player.z
  tx * dx + ty * dy + tz * dz

/-- The function `isTargetHit` (lines 74-89). -/
def isTargetHit (M : JSMath F) (player : Player F) (target : Target F) : Bool :=
  let dx := -M.sin player.yaw * M.cos player.pitch
  let dy := M.sin player.pitch
  let dz := -M.cos player.yaw * M.cos player.pitch
  let tx := target.x - player.x
  let ty := target.y - player.y
  let tz := target.z - player.z
  let t := tx * dx + ty * dy + tz * dz
  if t < 0 then false
  else
    let closestX := dx * t
    let closestY := dy * t
    let closestZ := dz * t
    let distSq := (tx - closestX) ^ 2 + (ty - closestY) ^ 2 + (tz - closestZ) ^ 2
    decide (distSq < 1)

/-- Squared distance from the target centre to the point `camera + s * dir`
of the view axis. -/
def axisDistSq (M : JSMath F) (player : Player F) (target : Target F) (s : F) : F :=
  (target.x - player.x - s * (aimDir M player).1) ^ 2
    + (target.y - player.y - s * (aimDir M player).2.1) ^ 2
    + (target.z - player.z - s * (aimDir M player).2.2) ^ 2

end Geometry

section State

variable {F : Type} [LinearOrderedField F]

/-- A pending `setTimeout(() => resetTarget(t), 2000)` callback: the clock
value at which it becomes due and the index in `targets` of the captured
target `t`. -/
structure Timer where
  fireAt : Nat
  target : Nat
deriving DecidableEq, Repr

/-- The mutable globals of the script, the pending timers and a clock in
milliseconds.  `hitAt` is a history variable that the script does not have: it
records, for each index in `targets`, the clock value of the last `mousedown`
that shot that target; no operation reads it. -/
structure Game (F : Type) where
  canvas : Canvas F
  player : Player F
  environment : List (Box F)
  targets : List (Target F)
  keys : String → Bool
  pointerLocked : Bool
  timers : List Timer
  now : Nat
  hitAt : Nat → Option Nat

/-- The initial `player` (lines 14-21). -/
def initPlayer : Player F :=
  { x := 0, y := 0, z := 0, yaw := 0, pitch := 0, speed := 0.15 }

/-- The constant `environment` (lines 24-28). -/
def initEnvironment : List (Box F) :=
  [ { x := 4, y := 0, z := -6, w := 2, h := 2, d := 2 },
    { x := -6, y := 0, z := -12, w := 2, h := 2, d := 2 },
    { x := 0, y := 0, z := -18, w := 8, h := 2, d := 2 } ]

/-- The initial `targets` (lines 31-35). -/
def initTargets : List (Target F) :=
  [ { x := 5, y := 0, z := -10, alive := true },
    { x := -3, y := 0, z := -14, alive := true },
    { x := 2, y := 0, z := -20, alive := true } ]

/-- The state after the script has been loaded in a window of inner size
`innerWidth` by `innerHeight`. -/
def initGame (innerWidth innerHeight : F) : Game F :=
  { canvas := { width := innerWidth, height := innerHeight }
    player := initPlayer
    environment := initEnvironment
    targets := initTargets
    keys := fun _ => false
    pointerLocked := false
    timers := []
    now := 0
    hitAt := fun _ => none }

/-- The function `resizeCanvas` (lines 6-9). -/
def resizeCanvas (g : Game F) (innerWidth innerHeight : F) : Game F :=
  { g with canvas := { width := innerWidth, height := innerHeight } }

/-- The `pointerlockchange` listener (lines 45-49); `locked` is the value of
`document.pointerLockElement === canvas`. -/
def pointerlockchange (g : Game F) (locked : Bool) : Game F :=
  { g with pointerLocked := locked }

/-- The effect of the `mousemove` listener on the player once the pointer is
locked (lines 54-56). -/
def look (M : JSMath F) (player : Player F) (movementX movementY : F) : Player F :=
  let yaw := player.yaw - movementX * 0.002
  let pitch := player.pitch - movementY * 0.002
  let pitch := max (-M.PI / 2) (min (M.PI / 2) pitch)
  { player with yaw := yaw, pitch := pitch }

/-- The `mousemove` listener (lines 52-57). -/
def mousemove (M : JSMath F) (g : Game F) (movementX movementY : F) : Game F :=
  if !g.pointerLocked then g
  else { g with player := look M g.player movementX movementY }

/-- The `keydown` listener (line 60). -/
def keydown (g : Game F) (code : String) : Game F :=
  { g with keys := fun c => if c = code then true else g.keys c }

/-- The `keyup` listener (line 61). -/
def keyup (g : Game F) (code : String) : Game F :=
  { g with keys := fun c => if c = code then false else g.keys c }

/-- The function `resetTarget` (lines 91-96); `r1` and `r2` are the results
of its two calls of `Math.random()`, in order. -/
def resetTarget (_target : Target F) (r1 r2 : F) : Target F :=
  { x := (r1 - 0.5) * 16, y := 0, z := -8 - r2 * 20, alive := true }

/-- The loop of the `mousedown` listener (lines 66-71) over the targets from
index `i` on: returns the targets after the loop, the timers after the loop
and the indices of the targets that were shot. -/
def fireLoop (M : JSMath F) (player : Player F) (now : Nat) :
    Nat → List (Target F) → List Timer → List (Target F) × List Timer × List Nat
  | _, [], timers => ([], timers, [])
  | i, t :: rest, timers =>
    if t.alive && isTargetHit M player t then
      let r := fireLoop M player now (i + 1) rest (timers ++ [{ fireAt := now + 2000, target := i }])
      ({ t with alive := false } :: r.1, r.2.1, i :: r.2.2)
    else
      let r := fireLoop M player now (i + 1) rest timers
      (t :: r.1, r.2.1, r.2.2)

/-- The `mousedown` listener (lines 64-72). -/
def mousedown (M : JSMath F) (g : Game F) : Game F :=
  if !g.pointerLocked then g
  else
    let r := fireLoop M g.player g.now 0 g.targets g.timers
    { g with
      targets := r.1
      timers := r.2.1
      hitAt := fun i => if i ∈ r.2.2 then some g.now else g.hitAt i }

/-- The movement of the player in `update` (lines 98-107). -/
def move (M : JSMath F) (keys : String → Bool) (player : Player F) : Player F :=
  let forward : F := 0
  let right : F := 0
  let forward := if keys "KeyW" then forward + 1 else forward
  let forward := if keys "KeyS" then forward - 1 else forward
  let right := if keys "KeyA" then right - 1 else right
  let right := if keys "KeyD" then right + 1 else right
  let sinYaw := M.sin player.yaw
  let cosYaw := M.cos player.yaw
  { player with
    x := player.x + (forward * -sinYaw + right * cosYaw) * player.speed
    z := player.z + (forward * -cosYaw - right * sinYaw) * player.speed }

/-- The function `update` (lines 98-107). -/
def update (M : JSMath F) (g : Game F) : Game F :=
  { g with player := move M g.keys g.player }

/-- A call on the 2D context `ctx`, in the order issued. -/
inductive DrawCmd (F : Type) where
  | clearRect (x y w h : F)
  | fillStyle (style : String)
  | strokeStyle (style : String)
  | lineWidth (w : F)
  | fillRect (x y w h : F)
  | beginPath
  | moveTo (x y : F)
  | lineTo (x y : F)
  | closePath
  | arc (x y radius startAngle endAngle : F)
  | fill
  | stroke

/-- The single face that `render` builds for a box (lines 117-125). -/
def boxFaces (box : Box F) : List (List (F × F × F)) :=
  [ [ (box.x - box.w / 2, box.y - box.h / 2, box.z - box.d / 2),
      (box.x + box.w / 2, box.y - box.h / 2, box.z - box.d / 2),
      (box.x + box.w / 2, box.y + box.h / 2, box.z - box.d / 2),
      (box.x - box.w / 2, box.y + box.h / 2, box.z - box.d / 2) ] ]

/-- The body of the loop over `faces` (lines 128-137). -/
def drawFace (M : JSMath F) (g : Game F) (face : List (F × F × F)) : List (DrawCmd F) :=
  let pts := face.map fun v => worldToScreen M g.player g.canvas v.1 v.2.1 v.2.2
  if pts.all Option.isSome then
    match pts.filterMap id with
    | [] => []
    | p0 :: rest =>
      [DrawCmd.beginPath, DrawCmd.moveTo p0.x p0.y]
        ++ rest.map (fun p => DrawCmd.lineTo p.x p.y)
        ++ [DrawCmd.closePath, DrawCmd.fill, DrawCmd.strokeStyle "#222", DrawCmd.stroke]
  else []

/-- The body of the loop over `environment` (lines 116-139). -/
def drawBox (M : JSMath F) (g : Game F) (box : Box F) : List (DrawCmd F) :=
  DrawCmd.fillStyle "#666" :: (boxFaces box).flatMap (drawFace M g)

/-- The body of the loop over `targets` (lines 142-161). -/
def drawTarget (M : JSMath F) (g : Game F) (t : Target F) : List (DrawCmd F) :=
  if t.alive then
    match worldToScreen M g.player g.canvas t.x t.y t.z with
    | some screen =>
      [ DrawCmd.beginPath,
        DrawCmd.arc screen.x screen.y (40 / screen.depth) 0 (M.PI * 2),
        DrawCmd.fillStyle "#e33",
        DrawCmd.fill,
        DrawCmd.strokeStyle "#fff",
        DrawCmd.lineWidth 2,
        DrawCmd.stroke,
        DrawCmd.beginPath,
        DrawCmd.arc (screen.x - 8 / screen.depth) (screen.y - 5 / screen.depth)
          (3 / screen.depth) 0 (M.PI * 2),
        DrawCmd.arc (screen.x + 8 / screen.depth) (screen.y - 5 / screen.depth)
          (3 / screen.depth) 0 (M.PI * 2),
        DrawCmd.fillStyle "#fff",
        DrawCmd.fill ]
    | none => []
  else []

/-- The function `render` (lines 109-162), as the list of calls on `ctx`. -/
def render (M : JSMath F) (g : Game F) : List (DrawCmd F) :=
  [ DrawCmd.clearRect 0 0 g.canvas.width g.canvas.height,
    DrawCmd.fillStyle "#444",
    DrawCmd.fillRect 0 (g.canvas.height / 2) g.canvas.width (g.canvas.height / 2) ]
    ++ g.environment.flatMap (drawBox M g)
    ++ g.targets.flatMap (drawTarget M g)

/-- One run of the function `loop` (lines 180-184): the state it leaves and
the calls on `ctx` it made; the next run is the next `frame` event. -/
def loop (M : JSMath F) (g : Game F) : Game F × List (DrawCmd F) :=
  let g := if g.pointerLocked then update M g else g
  (g, render M g)

/-- The pending timer number `k` comes due: `resetTarget` runs on the target
it captured, with random draws `r1`, `r2`, and the timer is gone.  Nothing
happens when there is no such timer or the clock has not reached `fireAt`. -/
def timeout (g : Game F) (k : Nat) (r1 r2 : F) : Game F :=
  match g.timers[k]? with
  | none => g
  | some tm =>
    if tm.fireAt ≤ g.now then
      { g with
        targets := g.targets.modify (fun t => resetTarget t r1 r2) tm.target
        timers := g.timers.eraseIdx k }
    else g

/-- What can happen to a loaded page. -/
inductive Event (F : Type) where
  | resize (innerWidth innerHeight : F)
  | pointerlockchange (locked : Bool)
  | mousemove (movementX movementY : F)
  | keydown (code : String)
  | keyup (code : String)
  | mousedown
  | frame
  | elapse (ms : Nat)
  | timeout (k : Nat) (r1 r2 : F)

/-- The state after one event. -/
def step (M : JSMath F) (g : Game F) : Event F → Game F
  | .resize w h => resizeCanvas g w h
  | .pointerlockchange locked => pointerlockchange g locked
  | .mousemove mx my => mousemove M g mx my
  | .keydown code => keydown g code
  | .keyup code => keyup g code
  | .mousedown => mousedown M g
  | .frame => (loop M g).1
  | .elapse ms => { g with now := g.now + ms }
  | .timeout k r1 r2 => timeout g k r1 r2

/-- The state after a sequence of events. -/
def run (M : JSMath F) (g : Game F) (events : List (Event F)) : Game F :=
  events.foldl (step M) g

/-- The indices, counted from `i`, of the targets that a shot from `player`
kills: those that are alive and for which `isTargetHit` is true. -/
def shotFrom (M : JSMath F) (player : Player F) : Nat → List (Target F) → List Nat
  | _, [] => []
  | i, t :: rest =>
    if t.alive && isTargetHit M player t then i :: shotFrom M player (i + 1) rest
    else shotFrom M player (i + 1) rest

/-- The pending timers that captured the target of index `i`. -/
def pendingFor (timers : List Timer) (i : Nat) : List Timer :=
  timers.filter fun r => decide (r.target = i)

/-- The pitch lies between `-Math.PI/2` and `Math.PI/2`. -/
def PitchInRange (M : JSMath F) (g : Game F) : Prop :=
  -M.PI / 2 ≤ g.player.pitch ∧ g.player.pitch ≤ M.PI / 2

/-- The respawn invariant: an alive target and an index outside `targets` have
no pending timer; a dead target has exactly one, due 2000 ms after the clock
value `hitAt` of the shot that killed it, which is not in the future. -/
def RespawnInv (g : Game F) : Prop :=
  ∀ i : Nat,
    (∀ t, g.targets[i]? = some t → t.alive = true → pendingFor g.timers i = []) ∧
    (∀ t, g.targets[i]? = some t → t.alive = false →
      ∃ hit, g.hitAt i = some hit ∧ hit ≤ g.now ∧
        pendingFor g.timers i = [(⟨hit + 2000, i⟩ : Timer)]) ∧
    (g.targets[i]? = none → pendingFor g.timers i = [])

/-- The net forward intent of the claim on unnormalised movement: `1` for
`KeyW`, `-1` for `KeyS`, opposite keys cancelling to `0`. -/
def forwardIntent (keys : String → Bool) : F :=
  (if keys "KeyW" then 1 else 0) - (if keys "KeyS" then 1 else 0)

/-- The net strafe intent: `1` for `KeyD`, `-1` for `KeyA`, opposite keys
cancelling to `0`. -/
def rightIntent (keys : String → Bool) : F :=
  (if keys "KeyD" then 1 else 0) - (if keys "KeyA" then 1 else 0)

/-- The circles among a list of calls on `ctx`: centre and radius of every
`arc` call, in order. -/
def arcs : List (DrawCmd F) → List (F × F × F)
  | [] => []
  | DrawCmd.arc x y radius _ _ :: rest => (x, y, radius) :: arcs rest
  | _ :: rest => arcs rest

/-- The screen points of the targets that are alive and whose centre
`worldToScreen` projects to a non-null point, in the order of `targets`. -/
def visibleTargets (M : JSMath F) (g : Game F) : List (ScreenPoint F) :=
  g.targets.filterMap fun t =>
    if t.alive then worldToScreen M g.player g.canvas t.x t.y t.z else none

/-- The player and every target are at height `0`. -/
def HeightInv (g : Game F) : Prop :=
  g.player.y = 0 ∧ ∀ t ∈ g.targets, t.y = 0

end State

section GeometryFacts

variable {F : Type} [LinearOrderedField F]

theorem worldToScreen_eq_none_iff (M : JSMath F) (player : Player F) (canvas : Canvas F)
    (wx wy wz : F) :
    worldToScreen M player canvas wx wy wz = none ↔ 0 < camZ M player wx wy wz := by
  unfold worldToScreen camZ
  by_cases h : (wy - player.y) * M.sin player.pitch
      + ((wx - player.x) * M.sin player.yaw + (wz - player.z) * M.cos player.yaw)
        * M.cos player.pitch > 0
  · simp [h]
  · simp [h]

theorem worldToScreen_depth (M : JSMath F) (player : Player F) (canvas : Canvas F)
    (wx wy wz : F) (pt : ScreenPoint F)
    (h : worldToScreen M player canvas wx wy wz = some pt) :
    pt.depth = -camZ M player wx wy wz ∧ camZ M player wx wy wz ≤ 0 := by
  unfold worldToScreen at h
  unfold camZ
  by_cases hz : (wy - player.y) * M.sin player.pitch
      + ((wx - player.x) * M.sin player.yaw + (wz - player.z) * M.cos player.yaw)
        * M.cos player.pitch > 0
  · simp [hz] at h
  · simp only [hz, if_false, Option.some.injEq] at h
    subst h
    exact ⟨rfl, not_lt.mp hz⟩

/-- The depth coordinate that `worldToScreen` computes for the point at
distance `d` along the direction of `isTargetHit`. -/
theorem camZ_along_aimDir (M : JSMath F) (player : Player F) (d : F) :
    camZ M player (player.x + d * (aimDir M player).1) (player.y + d * (aimDir M player).2.1)
        (player.z + d * (aimDir M player).2.2)
      = -d * ((M.sin player.yaw ^ 2 + M.cos player.yaw ^ 2) * M.cos player.pitch ^ 2
          - M.sin player.pitch ^ 2) := by
  simp only [camZ, aimDir]
  ring

/-- What `isTargetHit` computes, in terms of `aimT` and `axisDistSq`. -/
theorem isTargetHit_iff_closest (M : JSMath F) (player : Player F) (target : Target F) :
    isTargetHit M player target = true ↔
      0 ≤ aimT M player target ∧
        axisDistSq M player target (aimT M player target) < 1 := by
  have hd : axisDistSq M player target (aimT M player target)
      = (target.x - player.x - -M.sin player.yaw * M.cos player.pitch * aimT M player target) ^ 2
        + (target.y - player.y - M.sin player.pitch * aimT M player target) ^ 2
        + (target.z - player.z - -M.cos player.yaw * M.cos player.pitch * aimT M player target) ^ 2 := by
    simp only [axisDistSq, aimDir]
    ring
  rw [hd]
  unfold isTargetHit
  by_cases ht : aimT M player target < 0
  · have ht' := ht
    unfold aimT at ht'
    simp only [ht', if_true]
    constructor
    · intro h
      cases h
    · intro h
      exact absurd h.1 (not_le.mpr ht)
  · have ht' := ht
    unfold aimT at ht'
    simp only [ht', if_false, decide_eq_true_eq]
    constructor
    · intro h
      exact ⟨not_lt.mp ht, by simpa only [aimT] using h⟩
    · intro h
      simpa only [aimT] using h.2

/-- The forward direction of `isTargetHit` is a unit vector. -/
theorem aimDir_unit (M : JSMath F) (hpy : ∀ a, M.sin a ^ 2 + M.cos a ^ 2 = 1)
    (player : Player F) :
    (aimDir M player).1 ^ 2 + (aimDir M player).2.1 ^ 2 + (aimDir M player).2.2 ^ 2 = 1 := by
  simp only [aimDir]
  linear_combination M.cos player.pitch ^ 2 * hpy player.yaw + hpy player.pitch

/-- The point of the view axis at parameter `aimT` is the closest one. -/
theorem axisDistSq_eq_add_sq (M : JSMath F) (hpy : ∀ a, M.sin a ^ 2 + M.cos a ^ 2 = 1)
    (player : Player F) (target : Target F) (s : F) :
    axisDistSq M player target s
      = axisDistSq M player target (aimT M player target) + (s - aimT M player target) ^ 2 := by
  have hu := aimDir_unit M hpy player
  simp only [axisDistSq, aimDir, aimT] at hu ⊢
  linear_combination
    (s ^ 2 - ((target.x - player.x) * (-M.sin player.yaw * M.cos player.pitch)
        + (target.y - player.y) * M.sin player.pitch
        + (target.z - player.z) * (-M.cos player.yaw * M.cos player.pitch)) ^ 2) * hu

/-- The value of `worldToScreen` for a point that the guard of line 172 lets
through. -/
theorem worldToScreen_of_not_pos (M : JSMath F) (player : Player F) (canvas : Canvas F)
    (wx wy wz : F) (hz : ¬ 0 < camZ M player wx wy wz) :
    worldToScreen M player canvas wx wy wz
      = some
          { x := canvas.width / 2
              + camX M player wx wy wz * (canvas.height / (2 * M.tan (1.2 / 2)))
                / -camZ M player wx wy wz
            y := canvas.height / 2
              + camY M player wx wy wz * (canvas.height / (2 * M.tan (1.2 / 2)))
                / -camZ M player wx wy wz
            depth := -camZ M player wx wy wz } := by
  have hz2 : ¬ ((wy - player.y) * M.sin player.pitch
      + ((wx - player.x) * M.sin player.yaw + (wz - player.z) * M.cos player.yaw)
        * M.cos player.pitch > 0) := hz
  simp only [worldToScreen, camX, camY, camZ, hz2, if_false]

/-- A function with period `T` takes the same value at `a + T * k` for every
integer `k`. -/
theorem eq_of_add_period_mul_int (f : F → F) (T : F) (h : ∀ a, f (a + T) = f a)
    (k : ℤ) (a : F) : f (a + T * k) = f a := by
  have hp : Function.Periodic f T := h
  have := hp.int_mul k a
  rwa [mul_comm] at this

/-- The camera-space transform of `worldToScreen` keeps the squared length. -/
theorem cam_sq_sum (M : JSMath F) (hpy : ∀ a, M.sin a ^ 2 + M.cos a ^ 2 = 1)
    (player : Player F) (wx wy wz : F) :
    camX M player wx wy wz ^ 2 + camY M player wx wy wz ^ 2 + camZ M player wx wy wz ^ 2
      = (wx - player.x) ^ 2 + (wy - player.y) ^ 2 + (wz - player.z) ^ 2 := by
  simp only [camX, camY, camZ]
  linear_combination
    ((wx - player.x) ^ 2 + (wz - player.z) ^ 2) * hpy player.yaw
      + ((wy - player.y) ^ 2
          + ((wx - player.x) * M.sin player.yaw + (wz - player.z) * M.cos player.yaw) ^ 2)
        * hpy player.pitch

/-- When the target is at the height of the camera, as every target of the
script is, a target on the view axis of `worldToScreen` (`xz = 0`, `yz = 0`,
`zz2 ≤ 0`) is hit: the sign of the pitch in `isTargetHit` does not matter
there. -/
theorem isTargetHit_of_centred_same_height (M : JSMath F)
    (hpy : ∀ a, M.sin a ^ 2 + M.cos a ^ 2 = 1) (player : Player F) (target : Target F)
    (hy : target.y = player.y)
    (hx0 : camX M player target.x target.y target.z = 0)
    (hy0 : camY M player target.x target.y target.z = 0)
    (hz0 : camZ M player target.x target.y target.z ≤ 0) :
    isTargetHit M player target = true := by
  have hsum := cam_sq_sum M hpy player target.x target.y target.z
  rw [hx0, hy0] at hsum
  have ht : aimT M player target = -camZ M player target.x target.y target.z := by
    simp only [aimT, camZ, hy, sub_self]
    ring
  have hsplit := axisDistSq_eq_add_sq M hpy player target 0
  have h0 : axisDistSq M player target 0
      = (target.x - player.x) ^ 2 + (target.y - player.y) ^ 2 + (target.z - player.z) ^ 2 := by
    simp only [axisDistSq]
    ring
  rw [isTargetHit_iff_closest]
  refine ⟨by rw [ht]; linarith, ?_⟩
  have hd : axisDistSq M player target (aimT M player target) = 0 := by
    rw [h0, ← hsum, ht] at hsplit
    rw [ht]
    linear_combination -hsplit
  rw [hd]
  exact zero_lt_one

end GeometryFacts

section DrawFacts

variable {F : Type}

theorem arcs_append (l1 l2 : List (DrawCmd F)) : arcs (l1 ++ l2) = arcs l1 ++ arcs l2 := by
  induction l1 with
  | nil => rfl
  | cons c rest ih =>
    cases c <;> simp [arcs, ih]

theorem arcs_map_lineTo (l : List (ScreenPoint F)) :
    arcs (l.map fun p => DrawCmd.lineTo p.x p.y) = [] := by
  induction l with
  | nil => rfl
  | cons a rest ih => simpa [arcs] using ih

theorem arcs_flatMap {α : Type} (f : α → List (DrawCmd F)) (l : List α) :
    arcs (l.flatMap f) = l.flatMap fun a => arcs (f a) := by
  induction l with
  | nil => rfl
  | cons a rest ih => simp [arcs_append, ih]

end DrawFacts

section StateFacts

variable {F : Type} [LinearOrderedField F]

theorem look_pitch_in_range (M : JSMath F) (hpi : 0 ≤ M.PI) (player : Player F)
    (movementX movementY : F) :
    -M.PI / 2 ≤ (look M player movementX movementY).pitch ∧
      (look M player movementX movementY).pitch ≤ M.PI / 2 := by
  have hle : -M.PI / 2 ≤ M.PI / 2 := by linarith
  simp only [look]
  exact ⟨le_max_left _ _, max_le hle (min_le_left _ _)⟩

theorem mousemove_pitch_in_range (M : JSMath F) (hpi : 0 ≤ M.PI) (g : Game F)
    (movementX movementY : F) (hg : PitchInRange M g) :
    PitchInRange M (mousemove M g movementX movementY) := by
  unfold mousemove
  cases g.pointerLocked
  · simpa using hg
  · simpa [PitchInRange] using look_pitch_in_range M hpi g.player movementX movementY

theorem update_pitch (M : JSMath F) (g : Game F) :
    (update M g).player.pitch = g.player.pitch := rfl

theorem mousedown_player (M : JSMath F) (g : Game F) :
    (mousedown M g).player = g.player := by
  unfold mousedown
  cases g.pointerLocked <;> rfl

theorem timeout_player (g : Game F) (k : Nat) (r1 r2 : F) :
    (timeout g k r1 r2).player = g.player := by
  unfold timeout
  cases g.timers[k]? with
  | none => rfl
  | some tm =>
    by_cases h : tm.fireAt ≤ g.now
    · simp [h]
    · simp [h]

theorem loop_player (M : JSMath F) (g : Game F) :
    (loop M g).1.player = if g.pointerLocked then move M g.keys g.player else g.player := by
  unfold loop
  cases g.pointerLocked <;> rfl

theorem step_pitch_in_range (M : JSMath F) (hpi : 0 ≤ M.PI) (g : Game F) (e : Event F)
    (hg : PitchInRange M g) : PitchInRange M (step M g e) := by
  cases e with
  | resize w h => exact hg
  | pointerlockchange locked => exact hg
  | mousemove mx my => exact mousemove_pitch_in_range M hpi g mx my hg
  | keydown code => exact hg
  | keyup code => exact hg
  | mousedown =>
    simp only [step, PitchInRange, mousedown_player]
    exact hg
  | frame =>
    simp only [step, PitchInRange, loop_player]
    cases g.pointerLocked
    · exact hg
    · exact hg
  | elapse ms => exact hg
  | timeout k r1 r2 =>
    simp only [step, PitchInRange, timeout_player]
    exact hg

theorem run_pitch_in_range (M : JSMath F) (hpi : 0 ≤ M.PI) (events : List (Event F)) :
    ∀ g : Game F, PitchInRange M g → PitchInRange M (run M g events) := by
  induction events with
  | nil => intro g hg; exact hg
  | cons e rest ih =>
    intro g hg
    exact ih (step M g e) (step_pitch_in_range M hpi g e hg)

theorem fireLoop_targets (M : JSMath F) (player : Player F) (now : Nat) :
    ∀ (ts : List (Target F)) (i : Nat) (timers : List Timer),
      (fireLoop M player now i ts timers).1
        = ts.map fun t =>
            if t.alive && isTargetHit M player t then { t with alive := false } else t := by
  intro ts
  induction ts with
  | nil => intro i timers; rfl
  | cons t rest ih =>
    intro i timers
    by_cases h : (t.alive && isTargetHit M player t) = true
    · simp only [fireLoop, h, if_true, List.map_cons, ih]
    · simp only [fireLoop, h, if_false, List.map_cons, ih]
      simp

theorem fireLoop_shot (M : JSMath F) (player : Player F) (now : Nat) :
    ∀ (ts : List (Target F)) (i : Nat) (timers : List Timer),
      (fireLoop M player now i ts timers).2.2 = shotFrom M player i ts := by
  intro ts
  induction ts with
  | nil => intro i timers; rfl
  | cons t rest ih =>
    intro i timers
    by_cases h : (t.alive && isTargetHit M player t) = true
    · simp only [fireLoop, shotFrom, h, if_true, ih]
    · simp only [fireLoop, shotFrom, h, if_false, ih]
      simp

theorem fireLoop_timers (M : JSMath F) (player : Player F) (now : Nat) :
    ∀ (ts : List (Target F)) (i : Nat) (timers : List Timer),
      (fireLoop M player now i ts timers).2.1
        = timers ++ (shotFrom M player i ts).map fun j => (⟨now + 2000, j⟩ : Timer) := by
  intro ts
  induction ts with
  | nil => intro i timers; simp [fireLoop, shotFrom]
  | cons t rest ih =>
    intro i timers
    by_cases h : (t.alive && isTargetHit M player t) = true
    · simp only [fireLoop, shotFrom, h, if_true, ih, List.map_cons, List.append_assoc,
        List.singleton_append]
    · simp only [fireLoop, shotFrom, h, if_false, ih]
      simp

theorem mem_shotFrom (M : JSMath F) (player : Player F) :
    ∀ (ts : List (Target F)) (i j : Nat),
      j ∈ shotFrom M player i ts ↔
        ∃ k t, j = i + k ∧ ts[k]? = some t ∧ (t.alive && isTargetHit M player t) = true := by
  intro ts
  induction ts with
  | nil => intro i j; simp [shotFrom]
  | cons t rest ih =>
    intro i j
    have hrest : j ∈ shotFrom M player (i + 1) rest ↔
        ∃ k t', j = i + (k + 1) ∧ (t :: rest)[k + 1]? = some t' ∧
          (t'.alive && isTargetHit M player t') = true := by
      rw [ih (i + 1) j]
      constructor
      · rintro ⟨k, t', hj, hk, ht⟩
        exact ⟨k, t', by omega, by simpa using hk, ht⟩
      · rintro ⟨k, t', hj, hk, ht⟩
        exact ⟨k, t', by omega, by simpa using hk, ht⟩
    by_cases h : (t.alive && isTargetHit M player t) = true
    · simp only [shotFrom, h, if_true, List.mem_cons, hrest]
      constructor
      · rintro (rfl | ⟨k, t', hj, hk, ht⟩)
        · exact ⟨0, t, rfl, by simp, h⟩
        · exact ⟨k + 1, t', hj, hk, ht⟩
      · rintro ⟨k, t', hj, hk, ht⟩
        cases k with
        | zero => left; simpa using hj
        | succ k => right; exact ⟨k, t', hj, hk, ht⟩
    · have hsf : shotFrom M player i (t :: rest) = shotFrom M player (i + 1) rest := by
        simp only [shotFrom, h]
        simp
      rw [hsf, hrest]
      constructor
      · rintro ⟨k, t', hj, hk, ht⟩
        exact ⟨k + 1, t', hj, hk, ht⟩
      · rintro ⟨k, t', hj, hk, ht⟩
        cases k with
        | zero =>
          simp only [List.getElem?_cons_zero, Option.some.injEq] at hk
          subst hk
          exact absurd ht h
        | succ k => exact ⟨k, t', hj, hk, ht⟩

theorem mem_shotFrom_zero (M : JSMath F) (player : Player F) (ts : List (Target F)) (j : Nat) :
    j ∈ shotFrom M player 0 ts ↔
      ∃ t, ts[j]? = some t ∧ t.alive = true ∧ isTargetHit M player t = true := by
  rw [mem_shotFrom]
  constructor
  · rintro ⟨k, t, hj, hk, ht⟩
    have hjk : j = k := by omega
    subst hjk
    exact ⟨t, hk, by simpa using ht⟩
  · rintro ⟨t, hk, ha, hh⟩
    exact ⟨j, t, by omega, hk, by simp [ha, hh]⟩

theorem le_of_mem_shotFrom (M : JSMath F) (player : Player F) (ts : List (Target F))
    (i j : Nat) (h : j ∈ shotFrom M player i ts) : i ≤ j := by
  rw [mem_shotFrom] at h
  obtain ⟨k, _, hj, _, _⟩ := h
  omega

theorem nodup_shotFrom (M : JSMath F) (player : Player F) :
    ∀ (ts : List (Target F)) (i : Nat), (shotFrom M player i ts).Nodup := by
  intro ts
  induction ts with
  | nil => intro i; simp [shotFrom]
  | cons t rest ih =>
    intro i
    by_cases h : (t.alive && isTargetHit M player t) = true
    · simp only [shotFrom, h, if_true, List.nodup_cons]
      refine ⟨fun hmem => ?_, ih (i + 1)⟩
      have := le_of_mem_shotFrom M player rest (i + 1) i hmem
      omega
    · have hsf : shotFrom M player i (t :: rest) = shotFrom M player (i + 1) rest := by
        simp only [shotFrom, h]
        simp
      rw [hsf]
      exact ih (i + 1)

theorem pendingFor_append (l l2 : List Timer) (i : Nat) :
    pendingFor (l ++ l2) i = pendingFor l i ++ pendingFor l2 i := by
  simp [pendingFor]

theorem pendingFor_map_of_nodup (now : Nat) :
    ∀ (shot : List Nat), shot.Nodup → ∀ j : Nat,
      pendingFor (shot.map fun i => (⟨now + 2000, i⟩ : Timer)) j
        = if j ∈ shot then [(⟨now + 2000, j⟩ : Timer)] else [] := by
  intro shot
  induction shot with
  | nil => intro _ j; simp [pendingFor]
  | cons a rest ih =>
    intro hnd j
    rw [List.nodup_cons] at hnd
    have ih' := ih hnd.2 j
    by_cases hja : a = j
    · subst hja
      have hnot : a ∉ rest := hnd.1
      simp only [hnot, if_false] at ih'
      simp only [pendingFor] at ih' ⊢
      simp [ih']
    · have hja' : ¬ j = a := fun h => hja h.symm
      simp only [pendingFor] at ih' ⊢
      simp [hja, hja', ih']

theorem mousedown_locked (M : JSMath F) (g : Game F) (h : g.pointerLocked = true) :
    mousedown M g =
      { g with
        targets := g.targets.map fun t =>
          if t.alive && isTargetHit M g.player t then { t with alive := false } else t
        timers := g.timers ++
          (shotFrom M g.player 0 g.targets).map fun j => (⟨g.now + 2000, j⟩ : Timer)
        hitAt := fun i => if i ∈ shotFrom M g.player 0 g.targets then some g.now else g.hitAt i } := by
  unfold mousedown
  simp only [h, Bool.not_true, Bool.false_eq_true, if_false, fireLoop_targets, fireLoop_timers,
    fireLoop_shot]

theorem filter_eraseIdx_of_false {α : Type} (p : α → Bool) :
    ∀ (l : List α) (k : Nat) (x : α), l[k]? = some x → p x = false →
      (l.eraseIdx k).filter p = l.filter p := by
  intro l
  induction l with
  | nil => intro k x hk; simp at hk
  | cons a rest ih =>
    intro k x hk hp
    cases k with
    | zero =>
      simp only [List.getElem?_cons_zero, Option.some.injEq] at hk
      subst hk
      simp [List.filter_cons, hp]
    | succ k =>
      simp only [List.getElem?_cons_succ] at hk
      simp only [List.eraseIdx_cons_succ, List.filter_cons, ih k x hk hp]

theorem length_filter_eraseIdx_of_true {α : Type} (p : α → Bool) :
    ∀ (l : List α) (k : Nat) (x : α), l[k]? = some x → p x = true →
      ((l.eraseIdx k).filter p).length + 1 = (l.filter p).length := by
  intro l
  induction l with
  | nil => intro k x hk; simp at hk
  | cons a rest ih =>
    intro k x hk hp
    cases k with
    | zero =>
      simp only [List.getElem?_cons_zero, Option.some.injEq] at hk
      subst hk
      simp [List.filter_cons, hp]
    | succ k =>
      simp only [List.getElem?_cons_succ] at hk
      have := ih k x hk hp
      simp only [List.eraseIdx_cons_succ, List.filter_cons]
      cases p a
      · simpa using this
      · simp only [if_true, List.length_cons]
        omega

theorem respawnInv_init (innerWidth innerHeight : F) :
    RespawnInv (initGame innerWidth innerHeight) := by
  intro i
  refine ⟨fun _ _ _ => rfl, ?_, fun _ => rfl⟩
  intro t ht ha
  have hmem : t ∈ (initTargets : List (Target F)) := List.getElem?_mem ht
  simp only [initTargets, List.mem_cons, List.mem_singleton, List.not_mem_nil, or_false] at hmem
  rcases hmem with rfl | rfl | rfl <;> simp at ha

theorem respawnInv_mousedown (M : JSMath F) (g : Game F) (hg : RespawnInv g) :
    RespawnInv (mousedown M g) := by
  by_cases hl : g.pointerLocked = true
  · rw [mousedown_locked M g hl]
    intro i
    obtain ⟨halive, hdead, hnone⟩ := hg i
    have hpend : pendingFor (g.timers ++
          (shotFrom M g.player 0 g.targets).map fun j => (⟨g.now + 2000, j⟩ : Timer)) i
        = pendingFor g.timers i ++
          if i ∈ shotFrom M g.player 0 g.targets then [(⟨g.now + 2000, i⟩ : Timer)] else [] := by
      rw [pendingFor_append, pendingFor_map_of_nodup g.now _ (nodup_shotFrom M g.player g.targets 0)]
    have key : ∀ (f : Target F → Target F) (t2 : Target F),
        (g.targets.map f)[i]? = some t2 → ∃ t, g.targets[i]? = some t ∧ f t = t2 := by
      intro f t2 h
      rw [List.getElem?_map] at h
      cases hti : g.targets[i]? with
      | none => rw [hti] at h; cases h
      | some t =>
        rw [hti] at h
        exact ⟨t, rfl, by simpa using h⟩
    have hshot : ∀ t, g.targets[i]? = some t →
        (i ∈ shotFrom M g.player 0 g.targets ↔
          (t.alive && isTargetHit M g.player t) = true) := by
      intro t hti
      rw [mem_shotFrom_zero]
      constructor
      · rintro ⟨t2, ht2, ha, hh⟩
        rw [hti, Option.some.injEq] at ht2
        subst ht2
        simp [ha, hh]
      · intro hk
        simp only [Bool.and_eq_true] at hk
        exact ⟨t, hti, hk.1, hk.2⟩
    refine ⟨?_, ?_, ?_⟩
    · intro t2 ht2 ha
      obtain ⟨t, hti, rfl⟩ := key _ t2 ht2
      show pendingFor (g.timers ++ _) i = []
      rw [hpend]
      by_cases hk : (t.alive && isTargetHit M g.player t) = true
      · simp [hk] at ha
      · simp only [hk, if_false] at ha
        have hs : i ∉ shotFrom M g.player 0 g.targets := fun h => hk ((hshot t hti).1 h)
        rw [if_neg hs, List.append_nil]
        exact halive t hti ha
    · intro t2 ht2 ha
      obtain ⟨t, hti, rfl⟩ := key _ t2 ht2
      show ∃ hit, (if i ∈ shotFrom M g.player 0 g.targets then some g.now else g.hitAt i)
          = some hit ∧ hit ≤ g.now ∧ pendingFor (g.timers ++ _) i = [(⟨hit + 2000, i⟩ : Timer)]
      rw [hpend]
      by_cases hk : (t.alive && isTargetHit M g.player t) = true
      · have hs : i ∈ shotFrom M g.player 0 g.targets := (hshot t hti).2 hk
        have hta : t.alive = true := by
          simp only [Bool.and_eq_true] at hk
          exact hk.1
        rw [if_pos hs, if_pos hs, halive t hti hta]
        exact ⟨g.now, rfl, le_refl _, rfl⟩
      · simp only [hk, if_false] at ha
        have hs : i ∉ shotFrom M g.player 0 g.targets := fun h => hk ((hshot t hti).1 h)
        rw [if_neg hs, if_neg hs, List.append_nil]
        exact hdead t hti ha
    · intro hn
      have hn2 : g.targets[i]? = none := by
        have hn3 : (g.targets.map _)[i]? = none := hn
        rw [List.getElem?_map] at hn3
        cases hti : g.targets[i]? with
        | none => rfl
        | some t => rw [hti] at hn3; cases hn3
      have hs : i ∉ shotFrom M g.player 0 g.targets := by
        rw [mem_shotFrom_zero]
        rintro ⟨t, ht, _⟩
        rw [hn2] at ht
        cases ht
      show pendingFor (g.timers ++ _) i = []
      rw [hpend, if_neg hs, List.append_nil]
      exact hnone hn2
  · have hl2 : g.pointerLocked = false := by simpa using hl
    have : mousedown M g = g := by
      unfold mousedown
      simp [hl2]
    rw [this]
    exact hg

theorem timeout_due (g : Game F) (k : Nat) (r1 r2 : F) (tm : Timer)
    (hk : g.timers[k]? = some tm) (hdue : tm.fireAt ≤ g.now) :
    timeout g k r1 r2 =
      { g with
        targets := g.targets.modify (fun t => resetTarget t r1 r2) tm.target
        timers := g.timers.eraseIdx k } := by
  unfold timeout
  rw [hk]
  simp only [hdue, if_true]

theorem timeout_not_due (g : Game F) (k : Nat) (r1 r2 : F)
    (h : ∀ tm, g.timers[k]? = some tm → ¬ tm.fireAt ≤ g.now) :
    timeout g k r1 r2 = g := by
  unfold timeout
  cases hk : g.timers[k]? with
  | none => rfl
  | some tm =>
    simp only [h tm hk, if_false]

theorem respawnInv_timeout (g : Game F) (k : Nat) (r1 r2 : F) (hg : RespawnInv g) :
    RespawnInv (timeout g k r1 r2) := by
  by_cases hdue : ∃ tm, g.timers[k]? = some tm ∧ tm.fireAt ≤ g.now
  · obtain ⟨tm, hk, hle⟩ := hdue
    rw [timeout_due g k r1 r2 tm hk hle]
    have hlen := length_filter_eraseIdx_of_true (fun r : Timer => decide (r.target = tm.target))
      g.timers k tm hk (by simp)
    have hnonempty : pendingFor g.timers tm.target ≠ [] := by
      intro h
      simp only [pendingFor] at h
      rw [h] at hlen
      simp at hlen
    obtain ⟨halive, hdead, hnone⟩ := hg tm.target
    obtain ⟨t, hti, hta⟩ : ∃ t, g.targets[tm.target]? = some t ∧ t.alive = false := by
      cases hti : g.targets[tm.target]? with
      | none => exact absurd (hnone hti) hnonempty
      | some t =>
        cases hta : t.alive with
        | true => exact absurd (halive t hti hta) hnonempty
        | false => exact ⟨t, rfl, hta⟩
    obtain ⟨hit, _, _, hpend⟩ := hdead t hti hta
    have herased : pendingFor (g.timers.eraseIdx k) tm.target = [] := by
      simp only [pendingFor] at hpend ⊢
      rw [hpend] at hlen
      simp only [List.length_singleton, add_left_eq_self] at hlen
      exact List.eq_nil_of_length_eq_zero hlen
    intro i
    by_cases hij : tm.target = i
    · subst hij
      have hnew : (List.modify (fun t => resetTarget t r1 r2) tm.target g.targets)[tm.target]?
          = some (resetTarget t r1 r2) := by
        rw [List.getElem?_modify_eq, hti]
        rfl
      refine ⟨fun _ _ _ => herased, ?_, ?_⟩
      · intro t2 ht2 ha
        have ht2b : (List.modify (fun t => resetTarget t r1 r2) tm.target g.targets)[tm.target]?
            = some t2 := ht2
        rw [hnew, Option.some.injEq] at ht2b
        subst ht2b
        simp [resetTarget] at ha
      · intro hn
        have hnb : (List.modify (fun t => resetTarget t r1 r2) tm.target g.targets)[tm.target]?
            = none := hn
        rw [hnew] at hnb
        cases hnb
    · have hsame : (List.modify (fun t => resetTarget t r1 r2) tm.target g.targets)[i]?
          = g.targets[i]? := List.getElem?_modify_ne _ _ hij
      have hp : pendingFor (g.timers.eraseIdx k) i = pendingFor g.timers i := by
        simp only [pendingFor]
        exact filter_eraseIdx_of_false _ g.timers k tm hk (by simp [hij])
      obtain ⟨halive2, hdead2, hnone2⟩ := hg i
      refine ⟨?_, ?_, ?_⟩
      · intro t2 ht2 ha
        show pendingFor (g.timers.eraseIdx k) i = []
        rw [hp]
        exact halive2 t2 (hsame ▸ ht2) ha
      · intro t2 ht2 ha
        show ∃ hit, g.hitAt i = some hit ∧ hit ≤ g.now ∧
          pendingFor (g.timers.eraseIdx k) i = [(⟨hit + 2000, i⟩ : Timer)]
        rw [hp]
        exact hdead2 t2 (hsame ▸ ht2) ha
      · intro hn
        show pendingFor (g.timers.eraseIdx k) i = []
        rw [hp]
        exact hnone2 (hsame ▸ hn)
  · rw [timeout_not_due g k r1 r2 (fun tm hk hle => hdue ⟨tm, hk, hle⟩)]
    exact hg

theorem respawnInv_step (M : JSMath F) (g : Game F) (e : Event F) (hg : RespawnInv g) :
    RespawnInv (step M g e) := by
  cases e with
  | resize w h => exact hg
  | pointerlockchange locked => exact hg
  | mousemove mx my =>
    show RespawnInv (mousemove M g mx my)
    unfold mousemove
    cases g.pointerLocked
    · exact hg
    · exact hg
  | keydown code => exact hg
  | keyup code => exact hg
  | mousedown => exact respawnInv_mousedown M g hg
  | frame =>
    show RespawnInv (loop M g).1
    unfold loop
    cases g.pointerLocked
    · exact hg
    · exact hg
  | elapse ms =>
    intro i
    obtain ⟨halive, hdead, hnone⟩ := hg i
    refine ⟨halive, ?_, hnone⟩
    intro t ht ha
    obtain ⟨hit, h1, h2, h3⟩ := hdead t ht ha
    exact ⟨hit, h1, Nat.le_trans h2 (Nat.le_add_right _ _), h3⟩
  | timeout k r1 r2 => exact respawnInv_timeout g k r1 r2 hg

theorem respawnInv_run (M : JSMath F) (events : List (Event F)) :
    ∀ g : Game F, RespawnInv g → RespawnInv (run M g events) := by
  induction events with
  | nil => intro g hg; exact hg
  | cons e rest ih =>
    intro g hg
    exact ih (step M g e) (respawnInv_step M g e hg)

/-- With the real sine and cosine: after the pointer is locked and `KeyD` is
held for seven frames the player stands at `x = 1.05`, and a shot fired 500 ms
later kills the third target, at `(2, 0, -20)`, and no other. -/
theorem third_target_shot_after_strafe :
    (run ⟨Real.sin, Real.cos, Real.tan, Real.pi⟩ (initGame (800 : ℝ) 600)
      [Event.pointerlockchange true, Event.keydown "KeyD", Event.frame, Event.frame,
        Event.frame, Event.frame, Event.frame, Event.frame, Event.frame, Event.elapse 500,
        Event.mousedown]).targets[2]? = some ⟨2, 0, -20, false⟩ := by
  have h1 : |(19 : ℝ) / 20| < 1 := by rw [abs_lt]; constructor <;> norm_num
  have h2 : ¬ |(79 : ℝ) / 20| < 1 := by rw [abs_lt]; norm_num
  have h3 : ¬ |(81 : ℝ) / 20| < 1 := by rw [abs_lt]; norm_num
  simp [run, step, loop, update, move, keydown, pointerlockchange, initGame, initPlayer,
    initTargets, mousedown, fireLoop, isTargetHit]
  norm_num [h1, h2, h3]

theorem arcs_drawFace (M : JSMath F) (g : Game F) (face : List (F × F × F)) :
    arcs (drawFace M g face) = [] := by
  unfold drawFace
  simp only []
  split
  · split
    · rfl
    · simp [arcs_append, arcs, arcs_map_lineTo]
  · rfl

theorem arcs_drawBox (M : JSMath F) (g : Game F) (box : Box F) :
    arcs (drawBox M g box) = [] := by
  unfold drawBox
  simp [arcs, arcs_flatMap, arcs_drawFace]

theorem run_append (M : JSMath F) (g : Game F) (l1 l2 : List (Event F)) :
    run M g (l1 ++ l2) = run M (run M g l1) l2 := by
  simp [run, List.foldl_append]

theorem exists_index_of_pendingFor (timers : List Timer) (i : Nat) (r : Timer)
    (h : pendingFor timers i = [r]) : ∃ k : Nat, timers[k]? = some r := by
  have hmem : r ∈ pendingFor timers i := by rw [h]; exact List.mem_singleton_self r
  simp only [pendingFor, List.mem_filter] at hmem
  exact List.mem_iff_getElem?.mp hmem.1

/-- The timer of a dead target, once due, revives it: `resetTarget` runs on
that target and the timer is gone. -/
theorem timeout_revives (g : Game F) (hg : RespawnInv g) (i k : Nat) (t : Target F)
    (r : Timer) (hr : r.target = i) (ht : g.targets[i]? = some t)
    (hk : g.timers[k]? = some r) (hdue : r.fireAt ≤ g.now) (r1 r2 : F) :
    (timeout g k r1 r2).targets[i]? = some (resetTarget t r1 r2) ∧
      pendingFor (timeout g k r1 r2).timers i = [] := by
  have hinv := respawnInv_timeout g k r1 r2 hg i
  have htargets : (timeout g k r1 r2).targets[i]? = some (resetTarget t r1 r2) := by
    rw [timeout_due g k r1 r2 r hk hdue]
    show (List.modify (fun t => resetTarget t r1 r2) r.target g.targets)[i]? = _
    rw [hr, List.getElem?_modify_eq, ht]
    rfl
  exact ⟨htargets, hinv.1 _ htargets rfl⟩

/-- A dead target comes back to life only through its own timer, and only
once that timer is due. -/
theorem alive_again_only_by_timer (M : JSMath F) (g : Game F) (i : Nat) (t : Target F)
    (r : Timer) (ht : g.targets[i]? = some t) (ha : t.alive = false)
    (hp : pendingFor g.timers i = [r]) (e : Event F) (t2 : Target F)
    (h2 : (step M g e).targets[i]? = some t2) (ha2 : t2.alive = true) :
    ∃ k r1 r2, e = Event.timeout k r1 r2 ∧ g.timers[k]? = some r ∧ r.fireAt ≤ g.now ∧
      t2 = resetTarget t r1 r2 := by
  have hsame : ∀ g2 : Game F, g2.targets = g.targets → g2.targets[i]? = some t2 → False := by
    intro g2 hg2 h
    rw [hg2, ht, Option.some.injEq] at h
    subst h
    rw [ha] at ha2
    cases ha2
  cases e with
  | resize w h => exact (hsame _ rfl h2).elim
  | pointerlockchange locked => exact (hsame _ rfl h2).elim
  | mousemove mx my =>
    refine (hsame (mousemove M g mx my) ?_ h2).elim
    unfold mousemove
    cases g.pointerLocked <;> rfl
  | keydown code => exact (hsame _ rfl h2).elim
  | keyup code => exact (hsame _ rfl h2).elim
  | mousedown =>
    exfalso
    by_cases hl : g.pointerLocked = true
    · have h3 : (mousedown M g).targets[i]? = some t2 := h2
      rw [mousedown_locked M g hl] at h3
      have h4 : (g.targets.map fun t =>
          if t.alive && isTargetHit M g.player t then { t with alive := false } else t)[i]?
          = some t2 := h3
      rw [List.getElem?_map, ht] at h4
      simp only [Option.map_some', Option.some.injEq] at h4
      subst h4
      by_cases hk : (t.alive && isTargetHit M g.player t) = true
      · simp [hk] at ha2
      · simp [hk, ha] at ha2
    · have hl2 : g.pointerLocked = false := by simpa using hl
      refine hsame (mousedown M g) ?_ h2
      unfold mousedown
      simp [hl2]
  | frame =>
    refine (hsame (loop M g).1 ?_ h2).elim
    unfold loop
    cases g.pointerLocked <;> rfl
  | elapse ms => exact (hsame _ rfl h2).elim
  | timeout k r1 r2 =>
    have h3 : (timeout g k r1 r2).targets[i]? = some t2 := h2
    by_cases hdue : ∃ tm, g.timers[k]? = some tm ∧ tm.fireAt ≤ g.now
    · obtain ⟨tm, hk, hle⟩ := hdue
      rw [timeout_due g k r1 r2 tm hk hle] at h3
      have h4 : (List.modify (fun t => resetTarget t r1 r2) tm.target g.targets)[i]?
          = some t2 := h3
      by_cases hti : tm.target = i
      · have hmem : tm ∈ pendingFor g.timers i := by
          simp only [pendingFor, List.mem_filter, decide_eq_true_eq]
          exact ⟨List.getElem?_mem hk, hti⟩
        rw [hp, List.mem_singleton] at hmem
        subst hmem
        rw [hti, List.getElem?_modify_eq, ht] at h4
        simp only [Option.map_eq_map, Option.map_some', Option.some.injEq] at h4
        exact ⟨k, r1, r2, rfl, hk, hle, h4.symm⟩
      · rw [List.getElem?_modify_ne _ _ hti] at h4
        exact (hsame g rfl h4).elim
    · rw [timeout_not_due g k r1 r2 (fun tm hk hle => hdue ⟨tm, hk, hle⟩)] at h3
      exact (hsame g rfl h3).elim

theorem heightInv_init (innerWidth innerHeight : F) :
    HeightInv (initGame innerWidth innerHeight) := by
  refine ⟨rfl, ?_⟩
  intro t ht
  have hmem : t ∈ (initTargets : List (Target F)) := ht
  simp only [initTargets, List.mem_cons, List.mem_singleton, List.not_mem_nil, or_false] at hmem
  rcases hmem with rfl | rfl | rfl <;> rfl

theorem heightInv_step (M : JSMath F) (g : Game F) (e : Event F) (hg : HeightInv g) :
    HeightInv (step M g e) := by
  cases e with
  | resize w h => exact hg
  | pointerlockchange locked => exact hg
  | mousemove mx my =>
    show HeightInv (mousemove M g mx my)
    unfold mousemove
    cases g.pointerLocked
    · exact hg
    · exact ⟨hg.1, hg.2⟩
  | keydown code => exact hg
  | keyup code => exact hg
  | mousedown =>
    show HeightInv (mousedown M g)
    by_cases hl : g.pointerLocked = true
    · rw [mousedown_locked M g hl]
      refine ⟨hg.1, ?_⟩
      intro t ht
      have ht2 : t ∈ g.targets.map fun t =>
          if t.alive && isTargetHit M g.player t then { t with alive := false } else t := ht
      rw [List.mem_map] at ht2
      obtain ⟨t0, ht0, rfl⟩ := ht2
      by_cases hk : (t0.alive && isTargetHit M g.player t0) = true
      · simp only [hk, if_true]
        exact hg.2 t0 ht0
      · simp only [hk, if_false]
        exact hg.2 t0 ht0
    · have hl2 : g.pointerLocked = false := by simpa using hl
      have : mousedown M g = g := by
        unfold mousedown
        simp [hl2]
      rw [this]
      exact hg
  | frame =>
    show HeightInv (loop M g).1
    unfold loop
    cases g.pointerLocked
    · exact hg
    · exact ⟨hg.1, hg.2⟩
  | elapse ms => exact hg
  | timeout k r1 r2 =>
    show HeightInv (timeout g k r1 r2)
    by_cases hdue : ∃ tm, g.timers[k]? = some tm ∧ tm.fireAt ≤ g.now
    · obtain ⟨tm, hk, hle⟩ := hdue
      rw [timeout_due g k r1 r2 tm hk hle]
      refine ⟨hg.1, ?_⟩
      intro t ht
      have ht2 : t ∈ List.modify (fun t => resetTarget t r1 r2) tm.target g.targets := ht
      obtain ⟨n, hn⟩ := List.mem_iff_getElem?.mp ht2
      rw [List.getElem?_modify] at hn
      cases hgn : g.targets[n]? with
      | none => rw [hgn] at hn; cases hn
      | some t0 =>
        rw [hgn] at hn
        simp only [Option.map_eq_map, Option.map_some', Option.some.injEq] at hn
        by_cases hnn : tm.target = n
        · simp only [hnn, if_true] at hn
          rw [← hn]
          rfl
        · simp only [hnn, if_false] at hn
          rw [← hn]
          exact hg.2 t0 (List.getElem?_mem hgn)
    · rw [timeout_not_due g k r1 r2 (fun tm hk hle => hdue ⟨tm, hk, hle⟩)]
      exact hg

theorem heightInv_run (M : JSMath F) (events : List (Event F)) :
    ∀ g : Game F, HeightInv g → HeightInv (run M g events) := by
  induction events with
  | nil => intro g hg; exact hg
  | cons e rest ih =>
    intro g hg
    exact ih (step M g e) (heightInv_step M g e hg)

end StateFacts

section Claims

variable {F : Type} [LinearOrderedField F]

/-- C1 (evaluation at the failing input): for every camera pose and viewport,
`worldToScreen` called on the camera position itself, where the camera-space
depth coordinate is `0`, does not return `null`: it returns a screen point
whose depth, the divisor of `sx` and `sy`, is `0`. -/
theorem worldToScreen_at_camera_not_null (M : JSMath F) (player : Player F)
    (canvas : Canvas F) :
    camZ M player player.x player.y player.z = 0 ∧
      (worldToScreen M player canvas player.x player.y player.z).map (fun pt => pt.depth)
        = some 0 := by
  constructor
  · simp [camZ]
  · simp [worldToScreen]

/-- C2 (evaluation at the failing input): with the real sine and cosine, the
camera at the origin with yaw `0` and pitch `π/6`, the forward direction of
`isTargetHit` is `(0, 1/2, -√3/2)`, and the point at distance `2` along it,
`(0, 1, -√3)`, is projected by `worldToScreen` with depth `1`, not `2`; with
pitch `π/2` the point at distance `1` along the forward direction, `(0, 1, 0)`,
is rejected (`null`). -/
theorem worldToScreen_aim_point_mismatch (canvas : Canvas ℝ) :
    aimDir ⟨Real.sin, Real.cos, Real.tan, Real.pi⟩ ⟨0, 0, 0, 0, Real.pi / 6, 0.15⟩
        = (0, 1 / 2, -(Real.sqrt 3 / 2)) ∧
      (worldToScreen ⟨Real.sin, Real.cos, Real.tan, Real.pi⟩ ⟨0, 0, 0, 0, Real.pi / 6, 0.15⟩
          canvas 0 1 (-Real.sqrt 3)).map (fun pt => pt.depth) = some 1 ∧
      aimDir ⟨Real.sin, Real.cos, Real.tan, Real.pi⟩ ⟨0, 0, 0, 0, Real.pi / 2, 0.15⟩
        = (0, 1, 0) ∧
      worldToScreen ⟨Real.sin, Real.cos, Real.tan, Real.pi⟩ ⟨0, 0, 0, 0, Real.pi / 2, 0.15⟩
          canvas 0 1 0 = none := by
  have h3 : Real.sqrt 3 * Real.sqrt 3 = 3 := Real.mul_self_sqrt (by norm_num)
  refine ⟨?_, ?_, ?_, ?_⟩
  · simp [aimDir]
  · have hz : ¬ ((1 : ℝ) * (1 / 2) + -Real.sqrt 3 * (Real.sqrt 3 / 2) > 0) := by
      nlinarith
    simp only [worldToScreen, sub_zero, Real.sin_zero, Real.cos_zero, mul_zero, zero_mul,
      zero_add, mul_one, Real.sin_pi_div_six, Real.cos_pi_div_six, hz, if_false,
      Option.map_some', Option.some.injEq]
    nlinarith
  · simp [aimDir]
  · simp [worldToScreen]

/-- C3: when `Math.sin` and `Math.cos` satisfy `sin² + cos² = 1`, `isTargetHit`
returns true exactly when `t = v.dir >= 0` and the minimum over all `s` of the
squared distance from the target centre to `camera + s * dir` is below `1`
(the distance to the view axis is below the hit radius 1); with the camera at
the origin, yaw `0` and pitch `0`, the target `(0,0,-10)` is hit and the target
`(2,0,-10)` is not. -/
theorem isTargetHit_iff_in_front_and_near_axis (M : JSMath F)
    (hpy : ∀ a, M.sin a ^ 2 + M.cos a ^ 2 = 1) (hs0 : M.sin 0 = 0) (hc0 : M.cos 0 = 1) :
    (∀ (player : Player F) (target : Target F),
      isTargetHit M player target = true ↔
        0 ≤ aimT M player target ∧
          ∃ m, IsLeast (Set.range (axisDistSq M player target)) m ∧ m < 1) ∧
    (∀ (speed : F) (alive : Bool),
      isTargetHit M ⟨0, 0, 0, 0, 0, speed⟩ ⟨0, 0, -10, alive⟩ = true ∧
      isTargetHit M ⟨0, 0, 0, 0, 0, speed⟩ ⟨2, 0, -10, alive⟩ = false) := by
  constructor
  · intro player target
    rw [isTargetHit_iff_closest]
    constructor
    · rintro ⟨ht, hlt⟩
      refine ⟨ht, axisDistSq M player target (aimT M player target), ⟨⟨_, rfl⟩, ?_⟩, hlt⟩
      rintro _ ⟨s, rfl⟩
      show axisDistSq M player target (aimT M player target) ≤ axisDistSq M player target s
      rw [axisDistSq_eq_add_sq M hpy player target s]
      have := sq_nonneg (s - aimT M player target)
      linarith
    · rintro ⟨ht, m, ⟨⟨s, hs⟩, -⟩, hlt⟩
      refine ⟨ht, ?_⟩
      have hs' : axisDistSq M player target s = m := hs
      rw [axisDistSq_eq_add_sq M hpy player target s] at hs'
      have := sq_nonneg (s - aimT M player target)
      linarith
  · intro speed alive
    constructor
    · rw [isTargetHit_iff_closest]
      simp only [aimT, axisDistSq, aimDir, hs0, hc0]
      norm_num
    · rw [Bool.eq_false_iff, Ne, isTargetHit_iff_closest]
      simp only [aimT, axisDistSq, aimDir, hs0, hc0]
      norm_num

/-- Witness of C3 at the real sine and cosine. -/
theorem isTargetHit_iff_in_front_and_near_axis_witness :
    (∀ a : ℝ, Real.sin a ^ 2 + Real.cos a ^ 2 = 1) ∧ Real.sin 0 = 0 ∧ Real.cos 0 = 1 ∧
    (isTargetHit ⟨Real.sin, Real.cos, Real.tan, Real.pi⟩ ⟨0, 0, 0, 0, 0, 0.15⟩
        ⟨0, 0, -10, true⟩ = true ∧
      isTargetHit ⟨Real.sin, Real.cos, Real.tan, Real.pi⟩ ⟨0, 0, 0, 0, 0, 0.15⟩
        ⟨2, 0, -10, true⟩ = false) :=
  ⟨Real.sin_sq_add_cos_sq, Real.sin_zero, Real.cos_zero,
    (isTargetHit_iff_in_front_and_near_axis ⟨Real.sin, Real.cos, Real.tan, Real.pi⟩
      Real.sin_sq_add_cos_sq Real.sin_zero Real.cos_zero).2 0.15 true⟩

/-- C4: a target with `t = (target - camera).dir < 0` is never hit, whatever
its lateral distance and however close to the camera its centre is. -/
theorem isTargetHit_false_of_behind (M : JSMath F) (player : Player F) (target : Target F)
    (h : aimT M player target < 0) : isTargetHit M player target = false := by
  rw [Bool.eq_false_iff, Ne, isTargetHit_iff_closest]
  intro h'
  exact absurd h'.1 (not_le.mpr h)

/-- Witness of C4: the camera at the origin looking along `-z`, the target
centre at `(0, 0, 1/2)`, behind the camera and closer to it than the hit
radius. -/
theorem isTargetHit_false_of_behind_witness :
    aimT ⟨Real.sin, Real.cos, Real.tan, Real.pi⟩ ⟨0, 0, 0, 0, 0, 0.15⟩
        ⟨0, 0, 1 / 2, true⟩ < 0 ∧
      isTargetHit ⟨Real.sin, Real.cos, Real.tan, Real.pi⟩ ⟨0, 0, 0, 0, 0, 0.15⟩
        ⟨0, 0, 1 / 2, true⟩ = false :=
  ⟨by simp [aimT],
    isTargetHit_false_of_behind ⟨Real.sin, Real.cos, Real.tan, Real.pi⟩ ⟨0, 0, 0, 0, 0, 0.15⟩
      ⟨0, 0, 1 / 2, true⟩ (by simp [aimT])⟩

/-- C5: when `Math.PI` is not negative, the pitch stays within
`[-Math.PI/2, Math.PI/2]` in every state reached from the initial state by any
sequence of events (mouse moves with any movement, pointer locked or not,
frames, key presses, shots, timers); and the range is kept by `update` and by
the `mousemove` listener from any state, whatever the keys and the lock. -/
theorem pitch_in_range_of_reachable (M : JSMath F) (hpi : 0 ≤ M.PI) :
    (∀ (innerWidth innerHeight : F) (events : List (Event F)),
      -M.PI / 2 ≤ (run M (initGame innerWidth innerHeight) events).player.pitch ∧
        (run M (initGame innerWidth innerHeight) events).player.pitch ≤ M.PI / 2) ∧
    (∀ g : Game F, -M.PI / 2 ≤ g.player.pitch ∧ g.player.pitch ≤ M.PI / 2 →
      -M.PI / 2 ≤ (update M g).player.pitch ∧ (update M g).player.pitch ≤ M.PI / 2) ∧
    (∀ (g : Game F) (movementX movementY : F),
      -M.PI / 2 ≤ g.player.pitch ∧ g.player.pitch ≤ M.PI / 2 →
      -M.PI / 2 ≤ (mousemove M g movementX movementY).player.pitch ∧
        (mousemove M g movementX movementY).player.pitch ≤ M.PI / 2) := by
  refine ⟨?_, ?_, ?_⟩
  · intro w h events
    apply run_pitch_in_range M hpi events
    have h0 : (initGame w h).player.pitch = 0 := rfl
    simp only [PitchInRange, h0]
    constructor <;> linarith
  · intro g hg
    exact hg
  · intro g mx my hg
    exact mousemove_pitch_in_range M hpi g mx my hg

/-- Witness of C5 with the real `π`: the pointer is locked, the mouse is moved
up by 5000 units and a frame runs. -/
theorem pitch_in_range_of_reachable_witness :
    (0 : ℝ) ≤ Real.pi ∧
      -Real.pi / 2 ≤ (run ⟨Real.sin, Real.cos, Real.tan, Real.pi⟩ (initGame 800 600)
          [Event.pointerlockchange true, Event.mousemove 0 (-5000), Event.frame]).player.pitch ∧
      (run ⟨Real.sin, Real.cos, Real.tan, Real.pi⟩ (initGame 800 600)
          [Event.pointerlockchange true, Event.mousemove 0 (-5000), Event.frame]).player.pitch
        ≤ Real.pi / 2 :=
  ⟨Real.pi_pos.le,
    (pitch_in_range_of_reachable ⟨Real.sin, Real.cos, Real.tan, Real.pi⟩ Real.pi_pos.le).1
      800 600 [Event.pointerlockchange true, Event.mousemove 0 (-5000), Event.frame]⟩

/-- C6: one `update` with only `KeyW` held moves the camera by
`speed * (-sin yaw, 0, -cos yaw)`; from the initial player (origin, yaw `0`,
pitch `0`, speed `0.15`), when `sin 0 = 0` and `cos 0 = 1`, the new position is
`(0, 0, -0.15)`. -/
theorem update_forward_only (M : JSMath F) (g : Game F)
    (hW : g.keys "KeyW" = true) (hS : g.keys "KeyS" = false)
    (hA : g.keys "KeyA" = false) (hD : g.keys "KeyD" = false) :
    ((update M g).player.x = g.player.x + g.player.speed * -M.sin g.player.yaw ∧
      (update M g).player.y = g.player.y + g.player.speed * 0 ∧
      (update M g).player.z = g.player.z + g.player.speed * -M.cos g.player.yaw) ∧
    (M.sin 0 = 0 → M.cos 0 = 1 → g.player = initPlayer →
      (update M g).player.x = 0 ∧ (update M g).player.y = 0 ∧
        (update M g).player.z = -0.15) := by
  have hx : (update M g).player.x = g.player.x + g.player.speed * -M.sin g.player.yaw := by
    simp only [update, move, hW, hS, hA, hD, if_true]
    simp
    ring
  have hz : (update M g).player.z = g.player.z + g.player.speed * -M.cos g.player.yaw := by
    simp only [update, move, hW, hS, hA, hD, if_true]
    simp
    ring
  have hy : (update M g).player.y = g.player.y := rfl
  refine ⟨⟨hx, by rw [hy]; ring, hz⟩, ?_⟩
  intro hs0 hc0 hp
  rw [hx, hy, hz, hp]
  simp only [initPlayer, hs0, hc0]
  norm_num

/-- Witness of C6: the initial state after `KeyW` has been pressed. -/
theorem update_forward_only_witness :
    (keydown (initGame (800 : ℝ) 600) "KeyW").keys "KeyW" = true ∧
      (update ⟨Real.sin, Real.cos, Real.tan, Real.pi⟩
          (keydown (initGame (800 : ℝ) 600) "KeyW")).player.z = -0.15 :=
  ⟨by simp [keydown],
    ((update_forward_only ⟨Real.sin, Real.cos, Real.tan, Real.pi⟩
        (keydown (initGame (800 : ℝ) 600) "KeyW")
        (by simp [keydown]) (by simp [keydown, initGame]) (by simp [keydown, initGame])
        (by simp [keydown, initGame])).2 Real.sin_zero Real.cos_zero rfl).2.2⟩

/-- C7: `update` changes only `player.x` and `player.z`: `player.y`, yaw, pitch
and speed, the targets and the obstacles (and every other global) are the same
after the call, for every state and every combination of keys. -/
theorem update_changes_only_x_z (M : JSMath F) (g : Game F) :
    (update M g).player.y = g.player.y ∧
      (update M g).player.yaw = g.player.yaw ∧
      (update M g).player.pitch = g.player.pitch ∧
      (update M g).player.speed = g.player.speed ∧
      (update M g).targets = g.targets ∧
      (update M g).environment = g.environment ∧
      (update M g).canvas = g.canvas ∧
      (update M g).keys = g.keys ∧
      (update M g).pointerLocked = g.pointerLocked ∧
      (update M g).timers = g.timers :=
  ⟨rfl, rfl, rfl, rfl, rfl, rfl, rfl, rfl, rfl, rfl⟩

/-- C8: for random draws `r1`, `r2` in `[0, 1)`, `resetTarget` leaves
`x = (r1 - 0.5) * 16` in `[-8, 8]`, `y = 0`, `z = -8 - r2 * 20` in `[-28, -8]`,
so `z` is negative and not `0`, and `alive = true`, whatever the target was. -/
theorem resetTarget_spec (target : Target F) (r1 r2 : F)
    (h1 : 0 ≤ r1) (h1lt : r1 < 1) (h2 : 0 ≤ r2) (h2lt : r2 < 1) :
    (resetTarget target r1 r2).x = (r1 - 0.5) * 16 ∧
      -8 ≤ (resetTarget target r1 r2).x ∧ (resetTarget target r1 r2).x ≤ 8 ∧
      (resetTarget target r1 r2).y = 0 ∧
      (resetTarget target r1 r2).z = -8 - r2 * 20 ∧
      -28 ≤ (resetTarget target r1 r2).z ∧ (resetTarget target r1 r2).z ≤ -8 ∧
      (resetTarget target r1 r2).z < 0 ∧ (resetTarget target r1 r2).z ≠ 0 ∧
      (resetTarget target r1 r2).alive = true := by
  simp only [resetTarget]
  have hhalf : (0.5 : F) = 1 / 2 := by norm_num
  rw [hhalf]
  refine ⟨trivial, ?_, ?_, trivial, trivial, ?_, ?_, ?_, ?_, trivial⟩
  · linarith
  · linarith
  · linarith
  · linarith
  · linarith
  · intro h
    linarith

/-- Witness of C8: a dead target at `(100, 7, 3)` and the draws `1/4`, `1/2`. -/
theorem resetTarget_spec_witness :
    (0 : ℚ) ≤ 1 / 4 ∧ (1 / 4 : ℚ) < 1 ∧ (0 : ℚ) ≤ 1 / 2 ∧ (1 / 2 : ℚ) < 1 ∧
      (resetTarget (⟨100, 7, 3, false⟩ : Target ℚ) (1 / 4) (1 / 2)).z = -18 :=
  ⟨by norm_num, by norm_num, by norm_num, by norm_num,
    (resetTarget_spec (⟨100, 7, 3, false⟩ : Target ℚ) (1 / 4) (1 / 2)
      (by norm_num) (by norm_num) (by norm_num) (by norm_num)).2.2.2.2.1.trans (by norm_num)⟩

/-- C9: with the pointer locked, a `mousedown` treats every target on its own:
afterwards a target is alive iff it was alive and `isTargetHit` was false for
it, its `x`, `y`, `z` are unchanged, one timer due 2000 ms later is added for
each target that was alive and hit (the list `shot` of their indices has no
repetition and holds exactly those) and for no other, and the player is
unchanged; with the pointer not locked the state, timers included, is
unchanged. -/
theorem mousedown_spec (M : JSMath F) (g : Game F) :
    (g.pointerLocked = true →
      (mousedown M g).targets.length = g.targets.length ∧
      (∀ (i : Nat) (t : Target F), g.targets[i]? = some t →
        ∃ t2, (mousedown M g).targets[i]? = some t2 ∧
          (t2.alive = true ↔ t.alive = true ∧ isTargetHit M g.player t = false) ∧
          t2.x = t.x ∧ t2.y = t.y ∧ t2.z = t.z) ∧
      (∃ shot : List Nat, shot.Nodup ∧
        (∀ i, i ∈ shot ↔
          ∃ t, g.targets[i]? = some t ∧ t.alive = true ∧ isTargetHit M g.player t = true) ∧
        (mousedown M g).timers
          = g.timers ++ shot.map fun i => (⟨g.now + 2000, i⟩ : Timer)) ∧
      (mousedown M g).player = g.player) ∧
    (g.pointerLocked = false → mousedown M g = g) := by
  constructor
  · intro h
    rw [mousedown_locked M g h]
    refine ⟨by simp, ?_, ?_, rfl⟩
    · intro i t hi
      have hm : ∀ f : Target F → Target F, (g.targets.map f)[i]? = some (f t) := by
        intro f
        rw [List.getElem?_map, hi]
        rfl
      refine ⟨_, hm _, ?_⟩
      by_cases hk : (t.alive && isTargetHit M g.player t) = true
      · simp only [hk, if_true]
        simp only [Bool.and_eq_true] at hk
        simp [hk.2]
      · simp only [hk, if_false]
        simp only [Bool.and_eq_true, not_and, Bool.not_eq_true] at hk
        refine ⟨⟨fun ha => ⟨ha, hk ha⟩, fun ha => ha.1⟩, rfl, rfl, rfl⟩
    · exact ⟨shotFrom M g.player 0 g.targets, nodup_shotFrom M g.player g.targets 0,
        mem_shotFrom_zero M g.player g.targets, rfl⟩
  · intro h
    unfold mousedown
    simp [h]

/-- Witness of C9: the initial state with the pointer locked, and the initial
state itself, where it is not. -/
theorem mousedown_spec_witness :
    ((pointerlockchange (initGame (800 : ℝ) 600) true).pointerLocked = true ∧
      (mousedown ⟨Real.sin, Real.cos, Real.tan, Real.pi⟩
        (pointerlockchange (initGame (800 : ℝ) 600) true)).targets.length = 3) ∧
    ((initGame (800 : ℝ) 600).pointerLocked = false ∧
      mousedown ⟨Real.sin, Real.cos, Real.tan, Real.pi⟩ (initGame (800 : ℝ) 600)
        = initGame 800 600) :=
  ⟨⟨rfl, ((mousedown_spec ⟨Real.sin, Real.cos, Real.tan, Real.pi⟩
        (pointerlockchange (initGame (800 : ℝ) 600) true)).1 rfl).1⟩,
    ⟨rfl, (mousedown_spec ⟨Real.sin, Real.cos, Real.tan, Real.pi⟩
        (initGame (800 : ℝ) 600)).2 rfl⟩⟩

/-- C10: in every state reached from the initial state by any sequence of
events (shots, mouse moves, frames, key presses, resizes, pointer-lock changes,
clock advances and timer expiries with any random draws), each alive target
has no pending respawn timer and each dead target has exactly one, due 2000 ms
after the clock value `hit` of the shot that killed it. That timer is in the
timer list, at some index `k`; once the clock has reached `hit + 2000` its
expiry runs `resetTarget` on the target, which is alive again, and leaves no
timer for it, so it cannot fire twice; and no event makes the dead target
alive other than the expiry of that timer at a clock value of at least
`hit + 2000`. -/
theorem respawn_timer_invariant (M : JSMath F) (innerWidth innerHeight : F)
    (events : List (Event F)) (i : Nat) (t : Target F)
    (ht : (run M (initGame innerWidth innerHeight) events).targets[i]? = some t) :
    (t.alive = false →
      ∃ (hit k : Nat),
        (run M (initGame innerWidth innerHeight) events).hitAt i = some hit ∧
        hit ≤ (run M (initGame innerWidth innerHeight) events).now ∧
        pendingFor (run M (initGame innerWidth innerHeight) events).timers i
          = [(⟨hit + 2000, i⟩ : Timer)] ∧
        (run M (initGame innerWidth innerHeight) events).timers[k]?
          = some (⟨hit + 2000, i⟩ : Timer) ∧
        (∀ (ms : Nat) (r1 r2 : F),
          hit + 2000 ≤ (run M (initGame innerWidth innerHeight) events).now + ms →
          (run M (initGame innerWidth innerHeight)
              (events ++ [Event.elapse ms, Event.timeout k r1 r2])).targets[i]?
            = some (resetTarget t r1 r2) ∧
          (resetTarget t r1 r2).alive = true ∧
          pendingFor (run M (initGame innerWidth innerHeight)
              (events ++ [Event.elapse ms, Event.timeout k r1 r2])).timers i = []) ∧
        (∀ (e : Event F) (t2 : Target F),
          (run M (initGame innerWidth innerHeight) (events ++ [e])).targets[i]? = some t2 →
          t2.alive = true →
          ∃ k2 r1 r2, e = Event.timeout k2 r1 r2 ∧
            (run M (initGame innerWidth innerHeight) events).timers[k2]?
              = some (⟨hit + 2000, i⟩ : Timer) ∧
            hit + 2000 ≤ (run M (initGame innerWidth innerHeight) events).now ∧
            t2 = resetTarget t r1 r2)) ∧
    (t.alive = true →
      pendingFor (run M (initGame innerWidth innerHeight) events).timers i = []) := by
  have hg : RespawnInv (run M (initGame innerWidth innerHeight) events) :=
    respawnInv_run M events (initGame innerWidth innerHeight)
      (respawnInv_init innerWidth innerHeight)
  refine ⟨?_, (hg i).1 t ht⟩
  intro ha
  obtain ⟨hit, h1, h2, h3⟩ := (hg i).2.1 t ht ha
  obtain ⟨k, hk⟩ := exists_index_of_pendingFor _ i _ h3
  refine ⟨hit, k, h1, h2, h3, hk, ?_, ?_⟩
  · intro ms r1 r2 hdue
    rw [run_append]
    have hg2 : RespawnInv
        (step M (run M (initGame innerWidth innerHeight) events) (Event.elapse ms)) :=
      respawnInv_step M _ (Event.elapse ms) hg
    have hrev := timeout_revives
      (step M (run M (initGame innerWidth innerHeight) events) (Event.elapse ms)) hg2 i k t
      ⟨hit + 2000, i⟩ rfl ht hk hdue r1 r2
    exact ⟨hrev.1, rfl, hrev.2⟩
  · intro e t2 h2e ha2
    rw [run_append] at h2e
    exact alive_again_only_by_timer M _ i t ⟨hit + 2000, i⟩ ht ha h3 e t2 h2e ha2

/-- Witness of C10: the third target, shot at clock value 500 after seven
frames of strafing, is dead and has exactly one pending timer; when that timer
expires after the clock has advanced far enough, with random draws `1/4` and
`1/2`, the target is the one `resetTarget` makes. -/
theorem respawn_timer_invariant_witness :
    (run ⟨Real.sin, Real.cos, Real.tan, Real.pi⟩ (initGame (800 : ℝ) 600)
      [Event.pointerlockchange true, Event.keydown "KeyD", Event.frame, Event.frame,
        Event.frame, Event.frame, Event.frame, Event.frame, Event.frame, Event.elapse 500,
        Event.mousedown]).targets[2]? = some ⟨2, 0, -20, false⟩ ∧
    ∃ (hit k : Nat),
      (run ⟨Real.sin, Real.cos, Real.tan, Real.pi⟩ (initGame (800 : ℝ) 600)
        [Event.pointerlockchange true, Event.keydown "KeyD", Event.frame, Event.frame,
        Event.frame, Event.frame, Event.frame, Event.frame, Event.frame, Event.elapse 500,
        Event.mousedown]).hitAt 2 = some hit ∧
      pendingFor (run ⟨Real.sin, Real.cos, Real.tan, Real.pi⟩ (initGame (800 : ℝ) 600)
        [Event.pointerlockchange true, Event.keydown "KeyD", Event.frame, Event.frame,
        Event.frame, Event.frame, Event.frame, Event.frame, Event.frame, Event.elapse 500,
        Event.mousedown]).timers 2 = [(⟨hit + 2000, 2⟩ : Timer)] ∧
      ∀ ms : Nat,
        hit + 2000 ≤ (run ⟨Real.sin, Real.cos, Real.tan, Real.pi⟩ (initGame (800 : ℝ) 600)
          [Event.pointerlockchange true, Event.keydown "KeyD", Event.frame, Event.frame,
        Event.frame, Event.frame, Event.frame, Event.frame, Event.frame, Event.elapse 500,
        Event.mousedown]).now + ms →
        (run ⟨Real.sin, Real.cos, Real.tan, Real.pi⟩ (initGame (800 : ℝ) 600)
          ([Event.pointerlockchange true, Event.keydown "KeyD", Event.frame, Event.frame,
        Event.frame, Event.frame, Event.frame, Event.frame, Event.frame, Event.elapse 500,
        Event.mousedown] ++ [Event.elapse ms, Event.timeout k (1 / 4) (1 / 2)])).targets[2]?
          = some (resetTarget (⟨2, 0, -20, false⟩ : Target ℝ) (1 / 4) (1 / 2)) := by
  obtain ⟨hit, k, h1, _, h3, _, h5, _⟩ :=
    (respawn_timer_invariant (⟨Real.sin, Real.cos, Real.tan, Real.pi⟩ : JSMath ℝ) 800 600
      [Event.pointerlockchange true, Event.keydown "KeyD", Event.frame, Event.frame,
        Event.frame, Event.frame, Event.frame, Event.frame, Event.frame, Event.elapse 500,
        Event.mousedown] 2 ⟨2, 0, -20, false⟩ third_target_shot_after_strafe).1 rfl
  exact ⟨third_target_shot_after_strafe, hit, k, h1, h3,
    fun ms hms => (h5 ms (1 / 4) (1 / 2) hms).1⟩

/-- C11: while `pointerLocked` is false, one run of `loop` and any `mousemove`
leave the whole state, the player included, unchanged, whatever the keys and
the mouse movement; while it is true, the state after `loop` is the state after
exactly one `update`. In both cases the calls on `ctx` are those of `render` on
the resulting state, and the state after `loop` is the old state or the state
after `update`: `render` changes nothing. -/
theorem loop_input_gating (M : JSMath F) (g : Game F) :
    (g.pointerLocked = false →
      (loop M g).1 = g ∧ (loop M g).1.player = g.player ∧
        ∀ movementX movementY : F,
          mousemove M g movementX movementY = g ∧
            (mousemove M g movementX movementY).player = g.player) ∧
    (g.pointerLocked = true → (loop M g).1 = update M g) ∧
    (loop M g).2 = render M (loop M g).1 ∧
    ((loop M g).1 = g ∨ (loop M g).1 = update M g) := by
  refine ⟨?_, ?_, rfl, ?_⟩
  · intro h
    have hloop : (loop M g).1 = g := by
      unfold loop
      simp [h]
    have hmm : ∀ mx my : F, mousemove M g mx my = g := by
      intro mx my
      unfold mousemove
      simp [h]
    refine ⟨hloop, by rw [hloop], fun mx my => ⟨hmm mx my, by rw [hmm mx my]⟩⟩
  · intro h
    unfold loop
    simp [h]
  · unfold loop
    cases g.pointerLocked
    · left; rfl
    · right; rfl

/-- Witness of C11: the initial state with all four keys irrelevant and the
pointer not locked, and the same state with the pointer locked and `KeyW`
held. -/
theorem loop_input_gating_witness :
    ((keydown (initGame (800 : ℝ) 600) "KeyW").pointerLocked = false ∧
      (loop ⟨Real.sin, Real.cos, Real.tan, Real.pi⟩
        (keydown (initGame (800 : ℝ) 600) "KeyW")).1 = keydown (initGame 800 600) "KeyW") ∧
    ((pointerlockchange (keydown (initGame (800 : ℝ) 600) "KeyW") true).pointerLocked = true ∧
      (loop ⟨Real.sin, Real.cos, Real.tan, Real.pi⟩
          (pointerlockchange (keydown (initGame (800 : ℝ) 600) "KeyW") true)).1
        = update ⟨Real.sin, Real.cos, Real.tan, Real.pi⟩
            (pointerlockchange (keydown (initGame (800 : ℝ) 600) "KeyW") true)) :=
  ⟨⟨rfl, ((loop_input_gating ⟨Real.sin, Real.cos, Real.tan, Real.pi⟩
        (keydown (initGame (800 : ℝ) 600) "KeyW")).1 rfl).1⟩,
    ⟨rfl, (loop_input_gating ⟨Real.sin, Real.cos, Real.tan, Real.pi⟩
        (pointerlockchange (keydown (initGame (800 : ℝ) 600) "KeyW") true)).2.1 rfl⟩⟩

/-- C12: for a world point with camera-space depth coordinate `zc < 0` and any
two viewports, `worldToScreen` returns two screen points whose offsets from the
viewport centres are proportional to the viewport heights and whose depths are
equal; whether the result is `null` does not depend on the viewport; and
`resizeCanvas` leaves the player, the targets and the obstacles unchanged. -/
theorem worldToScreen_viewport_scaling (M : JSMath F) (player : Player F)
    (c1 c2 : Canvas F) (wx wy wz : F) :
    (camZ M player wx wy wz < 0 →
      ∃ p1 p2, worldToScreen M player c1 wx wy wz = some p1 ∧
        worldToScreen M player c2 wx wy wz = some p2 ∧
        (p2.x - c2.width / 2) * c1.height = (p1.x - c1.width / 2) * c2.height ∧
        (p2.y - c2.height / 2) * c1.height = (p1.y - c1.height / 2) * c2.height ∧
        p2.depth = p1.depth) ∧
    (worldToScreen M player c1 wx wy wz = none ↔
      worldToScreen M player c2 wx wy wz = none) ∧
    (∀ (g : Game F) (innerWidth innerHeight : F),
      (resizeCanvas g innerWidth innerHeight).player = g.player ∧
        (resizeCanvas g innerWidth innerHeight).targets = g.targets ∧
        (resizeCanvas g innerWidth innerHeight).environment = g.environment) := by
  refine ⟨?_, ?_, fun g w h => ⟨rfl, rfl, rfl⟩⟩
  · intro hz
    have hz2 : ¬ 0 < camZ M player wx wy wz := not_lt.mpr hz.le
    refine ⟨_, _, worldToScreen_of_not_pos M player c1 wx wy wz hz2,
      worldToScreen_of_not_pos M player c2 wx wy wz hz2, ?_, ?_, rfl⟩
    · simp only []
      ring
    · simp only []
      ring
  · rw [worldToScreen_eq_none_iff, worldToScreen_eq_none_iff]

/-- Witness of C12: the initial camera, the point `(1, 1, -2)` in front of it,
and the viewports 800 by 600 and 1024 by 768. -/
theorem worldToScreen_viewport_scaling_witness :
    camZ ⟨Real.sin, Real.cos, Real.tan, Real.pi⟩ (initPlayer : Player ℝ) 1 1 (-2) < 0 ∧
    ∃ p1 p2, worldToScreen ⟨Real.sin, Real.cos, Real.tan, Real.pi⟩ (initPlayer : Player ℝ)
          ⟨800, 600⟩ 1 1 (-2) = some p1 ∧
        worldToScreen ⟨Real.sin, Real.cos, Real.tan, Real.pi⟩ (initPlayer : Player ℝ)
          ⟨1024, 768⟩ 1 1 (-2) = some p2 ∧
        (p2.x - (⟨1024, 768⟩ : Canvas ℝ).width / 2) * (⟨800, 600⟩ : Canvas ℝ).height
          = (p1.x - (⟨800, 600⟩ : Canvas ℝ).width / 2) * (⟨1024, 768⟩ : Canvas ℝ).height ∧
        (p2.y - (⟨1024, 768⟩ : Canvas ℝ).height / 2) * (⟨800, 600⟩ : Canvas ℝ).height
          = (p1.y - (⟨800, 600⟩ : Canvas ℝ).height / 2) * (⟨1024, 768⟩ : Canvas ℝ).height ∧
        p2.depth = p1.depth :=
  ⟨by simp [camZ, initPlayer],
    (worldToScreen_viewport_scaling ⟨Real.sin, Real.cos, Real.tan, Real.pi⟩
      (initPlayer : Player ℝ) ⟨800, 600⟩ ⟨1024, 768⟩ 1 1 (-2)).1 (by simp [camZ, initPlayer])⟩

/-- C14: when `Math.sin` and `Math.cos` have period `2 * Math.PI`, replacing
`yaw` by `yaw + 2 * Math.PI * k` for an integer `k` leaves the result of
`worldToScreen`, the result of `isTargetHit` and the displacement of the
position made by `update` unchanged. -/
theorem yaw_period_two_pi (M : JSMath F)
    (hsin : ∀ a, M.sin (a + 2 * M.PI) = M.sin a) (hcos : ∀ a, M.cos (a + 2 * M.PI) = M.cos a)
    (k : ℤ) (g : Game F) :
    (∀ (wx wy wz : F),
      worldToScreen M { g.player with yaw := g.player.yaw + 2 * M.PI * k } g.canvas wx wy wz
        = worldToScreen M g.player g.canvas wx wy wz) ∧
    (∀ target : Target F,
      isTargetHit M { g.player with yaw := g.player.yaw + 2 * M.PI * k } target
        = isTargetHit M g.player target) ∧
    ((update M { g with player := { g.player with yaw := g.player.yaw + 2 * M.PI * k } }).player.x
        - g.player.x = (update M g).player.x - g.player.x) ∧
    ((update M { g with player := { g.player with yaw := g.player.yaw + 2 * M.PI * k } }).player.z
        - g.player.z = (update M g).player.z - g.player.z) := by
  have hs : M.sin (g.player.yaw + 2 * M.PI * k) = M.sin g.player.yaw :=
    eq_of_add_period_mul_int M.sin (2 * M.PI) hsin k g.player.yaw
  have hc : M.cos (g.player.yaw + 2 * M.PI * k) = M.cos g.player.yaw :=
    eq_of_add_period_mul_int M.cos (2 * M.PI) hcos k g.player.yaw
  refine ⟨?_, ?_, ?_, ?_⟩
  · intro wx wy wz
    simp only [worldToScreen, hs, hc]
  · intro target
    simp only [isTargetHit, hs, hc]
  · simp only [update, move, hs, hc]
  · simp only [update, move, hs, hc]

/-- Witness of C14 with the real sine and cosine and `k = -3`: the hit test
of the first target from the initial state. -/
theorem yaw_period_two_pi_witness :
    (∀ a : ℝ, Real.sin (a + 2 * Real.pi) = Real.sin a) ∧
    (∀ a : ℝ, Real.cos (a + 2 * Real.pi) = Real.cos a) ∧
    isTargetHit ⟨Real.sin, Real.cos, Real.tan, Real.pi⟩
        { (initGame (800 : ℝ) 600).player with
          yaw := (initGame (800 : ℝ) 600).player.yaw + 2 * Real.pi * ((-3 : ℤ) : ℝ) }
        ⟨5, 0, -10, true⟩
      = isTargetHit ⟨Real.sin, Real.cos, Real.tan, Real.pi⟩ (initGame (800 : ℝ) 600).player
          ⟨5, 0, -10, true⟩ :=
  ⟨Real.sin_add_two_pi, Real.cos_add_two_pi,
    (yaw_period_two_pi ⟨Real.sin, Real.cos, Real.tan, Real.pi⟩ Real.sin_add_two_pi
      Real.cos_add_two_pi (-3) (initGame (800 : ℝ) 600)).2.1 ⟨5, 0, -10, true⟩⟩

/-- With the real sine and cosine, the camera at the origin with yaw `0` and
pitch `π/6` (inside `[-π/2, π/2]`): the point `(0, -2, -2√3)`, below the
camera, is projected by `worldToScreen` exactly to the viewport centre, with
depth `4`, and yet `isTargetHit` is false for a target centred there. -/
theorem centred_target_not_hit (canvas : Canvas ℝ) :
    (-Real.pi / 2 ≤ Real.pi / 6 ∧ Real.pi / 6 ≤ Real.pi / 2) ∧
    worldToScreen ⟨Real.sin, Real.cos, Real.tan, Real.pi⟩ ⟨0, 0, 0, 0, Real.pi / 6, 0.15⟩
        canvas 0 (-2) (-(2 * Real.sqrt 3))
      = some ⟨canvas.width / 2, canvas.height / 2, 4⟩ ∧
    isTargetHit ⟨Real.sin, Real.cos, Real.tan, Real.pi⟩ ⟨0, 0, 0, 0, Real.pi / 6, 0.15⟩
        ⟨0, -2, -(2 * Real.sqrt 3), true⟩ = false := by
  have h3 : Real.sqrt 3 * Real.sqrt 3 = 3 := Real.mul_self_sqrt (by norm_num)
  have hpi := Real.pi_pos
  refine ⟨⟨by linarith, by linarith⟩, ?_, ?_⟩
  · have hz : camZ ⟨Real.sin, Real.cos, Real.tan, Real.pi⟩ ⟨0, 0, 0, 0, Real.pi / 6, 0.15⟩
        0 (-2) (-(2 * Real.sqrt 3)) = -4 := by
      simp only [camZ, sub_zero, Real.sin_zero, Real.cos_zero, mul_zero, zero_mul,
        zero_add, mul_one, Real.sin_pi_div_six, Real.cos_pi_div_six]
      nlinarith
    have hx : camX ⟨Real.sin, Real.cos, Real.tan, Real.pi⟩ ⟨0, 0, 0, 0, Real.pi / 6, 0.15⟩
        0 (-2) (-(2 * Real.sqrt 3)) = 0 := by
      simp [camX]
    have hy : camY ⟨Real.sin, Real.cos, Real.tan, Real.pi⟩ ⟨0, 0, 0, 0, Real.pi / 6, 0.15⟩
        0 (-2) (-(2 * Real.sqrt 3)) = 0 := by
      simp only [camY, sub_zero, Real.sin_zero, Real.cos_zero, mul_zero, zero_mul,
        zero_add, mul_one, Real.sin_pi_div_six, Real.cos_pi_div_six]
      ring
    rw [worldToScreen_of_not_pos _ _ _ _ _ _ (by rw [hz]; norm_num), hx, hy, hz]
    simp
  · rw [Bool.eq_false_iff, Ne, isTargetHit_iff_closest]
    rintro ⟨_, hlt⟩
    simp only [axisDistSq, aimT, aimDir, sub_zero, Real.sin_zero, Real.cos_zero, neg_zero,
      zero_mul, mul_zero, Real.sin_pi_div_six, Real.cos_pi_div_six] at hlt
    nlinarith [sq_nonneg (Real.sqrt 3)]

/-- C16, as stated, fails: at pitch `π/6` the target centre `(0, -2, -2√3)`,
which is not at the height of the camera, is projected exactly to the centre
of the 800 by 600 viewport and is not hit; and in a viewport of height `0` the
first target of the initial state, `(5, 0, -10)`, is projected to the viewport
centre `(800 / 2, 0 / 2)` and is not hit. -/
theorem centred_target_hit_counterexample :
    ((-Real.pi / 2 ≤ Real.pi / 6 ∧ Real.pi / 6 ≤ Real.pi / 2) ∧
      worldToScreen (⟨Real.sin, Real.cos, Real.tan, Real.pi⟩ : JSMath ℝ) ⟨0, 0, 0, 0, Real.pi / 6, 0.15⟩ ⟨800, 600⟩ 0 (-2) (-(2 * Real.sqrt 3))
        = some ⟨(⟨800, 600⟩ : Canvas ℝ).width / 2, (⟨800, 600⟩ : Canvas ℝ).height / 2, 4⟩ ∧
      isTargetHit (⟨Real.sin, Real.cos, Real.tan, Real.pi⟩ : JSMath ℝ) ⟨0, 0, 0, 0, Real.pi / 6, 0.15⟩ ⟨0, -2, -(2 * Real.sqrt 3), true⟩
        = false) ∧
    ((-Real.pi / 2 ≤ (initGame (800 : ℝ) 0).player.pitch ∧
        (initGame (800 : ℝ) 0).player.pitch ≤ Real.pi / 2) ∧
      worldToScreen (⟨Real.sin, Real.cos, Real.tan, Real.pi⟩ : JSMath ℝ) (initGame (800 : ℝ) 0).player (initGame (800 : ℝ) 0).canvas 5 0 (-10)
        = some ⟨(initGame (800 : ℝ) 0).canvas.width / 2,
            (initGame (800 : ℝ) 0).canvas.height / 2, 10⟩ ∧
      isTargetHit (⟨Real.sin, Real.cos, Real.tan, Real.pi⟩ : JSMath ℝ) (initGame (800 : ℝ) 0).player ⟨5, 0, -10, true⟩ = false) := by
  refine ⟨centred_target_not_hit ⟨800, 600⟩, ⟨?_, ?_⟩, ?_, ?_⟩
  · have := Real.pi_pos
    show -Real.pi / 2 ≤ (0 : ℝ)
    linarith
  · have := Real.pi_pos
    show (0 : ℝ) ≤ Real.pi / 2
    linarith
  · simp [worldToScreen, initGame, initPlayer]
  · rw [Bool.eq_false_iff, Ne, isTargetHit_iff_closest]
    rintro ⟨_, hlt⟩
    simp only [axisDistSq, aimT, aimDir, initGame, initPlayer, sub_zero, Real.sin_zero,
      Real.cos_zero, neg_zero, zero_mul, mul_zero, mul_one] at hlt
    norm_num at hlt

/-- C16, amended: when `sin² + cos² = 1` and `tan(fov / 2)` is not `0`, for
every camera pose, every viewport of non-zero height and every target at the
height of the camera, if `worldToScreen` projects the target centre exactly to
the viewport centre, with a non-zero depth (at depth `0` JavaScript divides by
zero and the coordinates are infinite or NaN, never the centre), then
`isTargetHit` is true; and in every state reached from the initial state by
any sequence of events every target is at the height of the camera. -/
theorem centred_target_hit_at_camera_height (M : JSMath F)
    (hpy : ∀ a, M.sin a ^ 2 + M.cos a ^ 2 = 1) (htan : M.tan (1.2 / 2) ≠ 0) :
    (∀ (player : Player F) (canvas : Canvas F) (target : Target F) (pt : ScreenPoint F),
      target.y = player.y → canvas.height ≠ 0 →
      worldToScreen M player canvas target.x target.y target.z = some pt →
      pt.x = canvas.width / 2 → pt.y = canvas.height / 2 → pt.depth ≠ 0 →
      isTargetHit M player target = true) ∧
    (∀ (innerWidth innerHeight : F) (events : List (Event F)) (t : Target F),
      t ∈ (run M (initGame innerWidth innerHeight) events).targets →
      t.y = (run M (initGame innerWidth innerHeight) events).player.y) := by
  constructor
  · intro player canvas target pt hy hH hpt hx hyc hd
    have hz : ¬ 0 < camZ M player target.x target.y target.z := by
      intro hpos
      rw [(worldToScreen_eq_none_iff M player canvas target.x target.y target.z).2 hpos] at hpt
      cases hpt
    rw [worldToScreen_of_not_pos M player canvas target.x target.y target.z hz,
      Option.some.injEq] at hpt
    subst hpt
    simp only [] at hx hyc hd
    have hscale : canvas.height / (2 * M.tan (1.2 / 2)) ≠ 0 :=
      div_ne_zero hH (mul_ne_zero two_ne_zero htan)
    have hx0 : camX M player target.x target.y target.z = 0 := by
      have h1 : camX M player target.x target.y target.z
          * (canvas.height / (2 * M.tan (1.2 / 2)))
          / -camZ M player target.x target.y target.z = 0 := by linarith
      rcases div_eq_zero_iff.mp h1 with h2 | h2
      · rcases mul_eq_zero.mp h2 with h3 | h3
        · exact h3
        · exact absurd h3 hscale
      · exact absurd h2 hd
    have hy0 : camY M player target.x target.y target.z = 0 := by
      have h1 : camY M player target.x target.y target.z
          * (canvas.height / (2 * M.tan (1.2 / 2)))
          / -camZ M player target.x target.y target.z = 0 := by linarith
      rcases div_eq_zero_iff.mp h1 with h2 | h2
      · rcases mul_eq_zero.mp h2 with h3 | h3
        · exact h3
        · exact absurd h3 hscale
      · exact absurd h2 hd
    exact isTargetHit_of_centred_same_height M hpy player target hy hx0 hy0 (not_lt.mp hz)
  · intro w h events t ht
    have hinv := heightInv_run M events (initGame w h) (heightInv_init w h)
    rw [hinv.1, hinv.2 t ht]

/-- Witness of C16 with the real sine, cosine and tangent: from the initial
camera the target `(0, 0, -10)`, straight ahead, is projected to the centre of
the 800 by 600 viewport with depth `10`, and is hit. -/
theorem centred_target_hit_at_camera_height_witness :
    (∀ a : ℝ, Real.sin a ^ 2 + Real.cos a ^ 2 = 1) ∧ Real.tan (1.2 / 2) ≠ 0 ∧
    (⟨0, 0, -10, true⟩ : Target ℝ).y = (initPlayer : Player ℝ).y ∧
    (⟨800, 600⟩ : Canvas ℝ).height ≠ 0 ∧
    worldToScreen (⟨Real.sin, Real.cos, Real.tan, Real.pi⟩ : JSMath ℝ) (initPlayer : Player ℝ) ⟨800, 600⟩ 0 0 (-10)
      = some ⟨(⟨800, 600⟩ : Canvas ℝ).width / 2, (⟨800, 600⟩ : Canvas ℝ).height / 2, 10⟩ ∧
    isTargetHit (⟨Real.sin, Real.cos, Real.tan, Real.pi⟩ : JSMath ℝ) (initPlayer : Player ℝ) ⟨0, 0, -10, true⟩ = true :=
  have htan : Real.tan (1.2 / 2) ≠ 0 :=
    ne_of_gt (Real.tan_pos_of_pos_of_lt_pi_div_two (by norm_num)
      (by have := Real.pi_gt_three; linarith))
  ⟨Real.sin_sq_add_cos_sq, htan, rfl, by norm_num,
    by simp [worldToScreen, initPlayer],
    (centred_target_hit_at_camera_height (⟨Real.sin, Real.cos, Real.tan, Real.pi⟩ : JSMath ℝ) Real.sin_sq_add_cos_sq htan).1
      (initPlayer : Player ℝ) ⟨800, 600⟩ ⟨0, 0, -10, true⟩
      ⟨(⟨800, 600⟩ : Canvas ℝ).width / 2, (⟨800, 600⟩ : Canvas ℝ).height / 2, 10⟩
      rfl (by norm_num) (by simp [worldToScreen, initPlayer]) rfl rfl (by norm_num)⟩

/-- C17: when `sin² + cos² = 1`, the squared length of the displacement made
by one `update` is `speed² * (forward² + right²)`, with `forward` and `right`
the net intents, each `-1`, `0` or `1`; so a step on a single axis has squared
length `speed²`, a diagonal step `2 * speed²` (length `speed * √2`), and when
both keys of each axis are held the position does not change. -/
theorem update_displacement_not_normalised (M : JSMath F)
    (hpy : ∀ a, M.sin a ^ 2 + M.cos a ^ 2 = 1) (g : Game F) :
    ((forwardIntent g.keys : F) = -1 ∨ (forwardIntent g.keys : F) = 0 ∨
      (forwardIntent g.keys : F) = 1) ∧
    ((rightIntent g.keys : F) = -1 ∨ (rightIntent g.keys : F) = 0 ∨
      (rightIntent g.keys : F) = 1) ∧
    ((update M g).player.x - g.player.x) ^ 2 + ((update M g).player.z - g.player.z) ^ 2
      = g.player.speed ^ 2 * ((forwardIntent g.keys : F) ^ 2 + (rightIntent g.keys : F) ^ 2) ∧
    ((forwardIntent g.keys : F) ^ 2 + (rightIntent g.keys : F) ^ 2 = 1 →
      ((update M g).player.x - g.player.x) ^ 2 + ((update M g).player.z - g.player.z) ^ 2
        = g.player.speed ^ 2) ∧
    ((forwardIntent g.keys : F) ≠ 0 → (rightIntent g.keys : F) ≠ 0 →
      ((update M g).player.x - g.player.x) ^ 2 + ((update M g).player.z - g.player.z) ^ 2
        = 2 * g.player.speed ^ 2) ∧
    (g.keys "KeyW" = true → g.keys "KeyS" = true → g.keys "KeyA" = true →
      g.keys "KeyD" = true →
      (update M g).player.x = g.player.x ∧ (update M g).player.z = g.player.z) := by
  have hf : (forwardIntent g.keys : F) = -1 ∨ (forwardIntent g.keys : F) = 0 ∨
      (forwardIntent g.keys : F) = 1 := by
    unfold forwardIntent
    cases g.keys "KeyW" <;> cases g.keys "KeyS" <;> simp
  have hr : (rightIntent g.keys : F) = -1 ∨ (rightIntent g.keys : F) = 0 ∨
      (rightIntent g.keys : F) = 1 := by
    unfold rightIntent
    cases g.keys "KeyD" <;> cases g.keys "KeyA" <;> simp
  have hx : (update M g).player.x = g.player.x
      + ((forwardIntent g.keys : F) * -M.sin g.player.yaw
          + (rightIntent g.keys : F) * M.cos g.player.yaw) * g.player.speed := by
    simp only [update, move, forwardIntent, rightIntent]
    cases g.keys "KeyW" <;> cases g.keys "KeyS" <;> cases g.keys "KeyA" <;>
      cases g.keys "KeyD" <;> simp
  have hz : (update M g).player.z = g.player.z
      + ((forwardIntent g.keys : F) * -M.cos g.player.yaw
          - (rightIntent g.keys : F) * M.sin g.player.yaw) * g.player.speed := by
    simp only [update, move, forwardIntent, rightIntent]
    cases g.keys "KeyW" <;> cases g.keys "KeyS" <;> cases g.keys "KeyA" <;>
      cases g.keys "KeyD" <;> simp
  have hsq : ((update M g).player.x - g.player.x) ^ 2
      + ((update M g).player.z - g.player.z) ^ 2
      = g.player.speed ^ 2
        * ((forwardIntent g.keys : F) ^ 2 + (rightIntent g.keys : F) ^ 2) := by
    rw [hx, hz]
    linear_combination
      g.player.speed ^ 2 * ((forwardIntent g.keys : F) ^ 2 + (rightIntent g.keys : F) ^ 2)
        * hpy g.player.yaw
  refine ⟨hf, hr, hsq, ?_, ?_, ?_⟩
  · intro h1
    rw [hsq, h1, mul_one]
  · intro hf0 hr0
    have hf2 : (forwardIntent g.keys : F) ^ 2 = 1 := by
      rcases hf with h | h | h
      · rw [h]; norm_num
      · exact absurd h hf0
      · rw [h]; norm_num
    have hr2 : (rightIntent g.keys : F) ^ 2 = 1 := by
      rcases hr with h | h | h
      · rw [h]; norm_num
      · exact absurd h hr0
      · rw [h]; norm_num
    rw [hsq, hf2, hr2]
    ring
  · intro hW hS hA hD
    have hf0 : (forwardIntent g.keys : F) = 0 := by simp [forwardIntent, hW, hS]
    have hr0 : (rightIntent g.keys : F) = 0 := by simp [rightIntent, hA, hD]
    rw [hx, hz, hf0, hr0]
    constructor <;> ring

/-- Witness of C17 with the real sine and cosine: `KeyW` and `KeyD` held
together from the initial state, a diagonal step of squared length
`2 * speed²`. -/
theorem update_displacement_not_normalised_witness :
    (∀ a : ℝ, Real.sin a ^ 2 + Real.cos a ^ 2 = 1) ∧
    (forwardIntent (keydown (keydown (initGame (800 : ℝ) 600) "KeyW") "KeyD").keys : ℝ) ≠ 0 ∧
    (rightIntent (keydown (keydown (initGame (800 : ℝ) 600) "KeyW") "KeyD").keys : ℝ) ≠ 0 ∧
    ((update ⟨Real.sin, Real.cos, Real.tan, Real.pi⟩
          (keydown (keydown (initGame (800 : ℝ) 600) "KeyW") "KeyD")).player.x
        - (keydown (keydown (initGame (800 : ℝ) 600) "KeyW") "KeyD").player.x) ^ 2
      + ((update ⟨Real.sin, Real.cos, Real.tan, Real.pi⟩
          (keydown (keydown (initGame (800 : ℝ) 600) "KeyW") "KeyD")).player.z
        - (keydown (keydown (initGame (800 : ℝ) 600) "KeyW") "KeyD").player.z) ^ 2
      = 2 * (keydown (keydown (initGame (800 : ℝ) 600) "KeyW") "KeyD").player.speed ^ 2 :=
  ⟨Real.sin_sq_add_cos_sq, by simp [forwardIntent, keydown, initGame],
    by simp [rightIntent, keydown, initGame],
    (update_displacement_not_normalised ⟨Real.sin, Real.cos, Real.tan, Real.pi⟩
      Real.sin_sq_add_cos_sq
      (keydown (keydown (initGame (800 : ℝ) 600) "KeyW") "KeyD")).2.2.2.2.1
      (by simp [forwardIntent, keydown, initGame]) (by simp [rightIntent, keydown, initGame])⟩

/-- C18: when `sin² + cos² = 1`, the camera-space coordinates `(xz, yz, zz2)`
computed by `worldToScreen` have the same squared length as the vector from
the camera to the world point; so a returned depth is not negative, its square
is at most the squared distance from the camera to the point, and it is at
most every non-negative `r` whose square is that squared distance (the
Euclidean distance). -/
theorem camera_space_rigid (M : JSMath F) (hpy : ∀ a, M.sin a ^ 2 + M.cos a ^ 2 = 1)
    (player : Player F) (canvas : Canvas F) (wx wy wz : F) :
    camX M player wx wy wz ^ 2 + camY M player wx wy wz ^ 2 + camZ M player wx wy wz ^ 2
      = (wx - player.x) ^ 2 + (wy - player.y) ^ 2 + (wz - player.z) ^ 2 ∧
    ∀ pt, worldToScreen M player canvas wx wy wz = some pt →
      0 ≤ pt.depth ∧
        pt.depth ^ 2 ≤ (wx - player.x) ^ 2 + (wy - player.y) ^ 2 + (wz - player.z) ^ 2 ∧
        ∀ r : F, 0 ≤ r →
          r ^ 2 = (wx - player.x) ^ 2 + (wy - player.y) ^ 2 + (wz - player.z) ^ 2 →
          pt.depth ≤ r := by
  have hsum := cam_sq_sum M hpy player wx wy wz
  refine ⟨hsum, ?_⟩
  intro pt hpt
  obtain ⟨hd, hz⟩ := worldToScreen_depth M player canvas wx wy wz pt hpt
  have hdepth : 0 ≤ pt.depth := by rw [hd]; linarith
  have hle : pt.depth ^ 2
      ≤ (wx - player.x) ^ 2 + (wy - player.y) ^ 2 + (wz - player.z) ^ 2 := by
    rw [← hsum, hd]
    nlinarith [sq_nonneg (camX M player wx wy wz), sq_nonneg (camY M player wx wy wz)]
  refine ⟨hdepth, hle, ?_⟩
  intro r hr hr2
  rw [← hr2] at hle
  exact le_of_not_lt fun h => by nlinarith

/-- C13: `render` issues, after the ground and the boxes, the commands of
`drawTarget` for each target in order; a dead target produces no command for
any player pose, an alive target whose centre projects to `null` produces
none, and an alive target whose centre projects to `screen` produces the body
circle `arc(screen.x, screen.y, 40 / screen.depth, 0, 2π)` followed by its
fill and stroke and the two eye dots. The circles of the whole frame are
exactly those of the visible targets, three per target (body, then eyes): no
other circle is drawn. -/
theorem render_target_circles (M : JSMath F) (g : Game F) :
    render M g
      = [ DrawCmd.clearRect 0 0 g.canvas.width g.canvas.height,
          DrawCmd.fillStyle "#444",
          DrawCmd.fillRect 0 (g.canvas.height / 2) g.canvas.width (g.canvas.height / 2) ]
        ++ g.environment.flatMap (drawBox M g) ++ g.targets.flatMap (drawTarget M g) ∧
    (∀ t : Target F, t.alive = false → drawTarget M g t = []) ∧
    (∀ t : Target F, t.alive = true →
      worldToScreen M g.player g.canvas t.x t.y t.z = none → drawTarget M g t = []) ∧
    (∀ (t : Target F) (screen : ScreenPoint F), t.alive = true →
      worldToScreen M g.player g.canvas t.x t.y t.z = some screen →
      drawTarget M g t
        = [ DrawCmd.beginPath,
            DrawCmd.arc screen.x screen.y (40 / screen.depth) 0 (M.PI * 2),
            DrawCmd.fillStyle "#e33",
            DrawCmd.fill,
            DrawCmd.strokeStyle "#fff",
            DrawCmd.lineWidth 2,
            DrawCmd.stroke,
            DrawCmd.beginPath,
            DrawCmd.arc (screen.x - 8 / screen.depth) (screen.y - 5 / screen.depth)
              (3 / screen.depth) 0 (M.PI * 2),
            DrawCmd.arc (screen.x + 8 / screen.depth) (screen.y - 5 / screen.depth)
              (3 / screen.depth) 0 (M.PI * 2),
            DrawCmd.fillStyle "#fff",
            DrawCmd.fill ]) ∧
    arcs (render M g)
      = (visibleTargets M g).flatMap fun screen =>
          [ (screen.x, screen.y, 40 / screen.depth),
            (screen.x - 8 / screen.depth, screen.y - 5 / screen.depth, 3 / screen.depth),
            (screen.x + 8 / screen.depth, screen.y - 5 / screen.depth, 3 / screen.depth) ] := by
  refine ⟨rfl, ?_, ?_, ?_, ?_⟩
  · intro t ht
    simp [drawTarget, ht]
  · intro t ht hn
    simp [drawTarget, ht, hn]
  · intro t screen ht hs
    simp [drawTarget, ht, hs]
  · have henv : arcs (g.environment.flatMap (drawBox M g)) = [] := by
      rw [arcs_flatMap]
      simp [arcs_drawBox]
    have htargets : ∀ ts : List (Target F),
        arcs (ts.flatMap (drawTarget M g))
          = (ts.filterMap fun t =>
              if t.alive then worldToScreen M g.player g.canvas t.x t.y t.z else none).flatMap
              fun screen =>
                [ (screen.x, screen.y, 40 / screen.depth),
                  (screen.x - 8 / screen.depth, screen.y - 5 / screen.depth, 3 / screen.depth),
                  (screen.x + 8 / screen.depth, screen.y - 5 / screen.depth,
                    3 / screen.depth) ] := by
      intro ts
      induction ts with
      | nil => rfl
      | cons t rest ih =>
        rw [List.flatMap_cons, arcs_append, ih]
        cases ha : t.alive with
        | false => simp [drawTarget, ha, arcs, List.filterMap_cons]
        | true =>
          cases hs : worldToScreen M g.player g.canvas t.x t.y t.z with
          | none => simp [drawTarget, ha, hs, arcs, List.filterMap_cons]
          | some screen => simp [drawTarget, ha, hs, arcs, List.filterMap_cons]
    unfold render visibleTargets
    rw [arcs_append, arcs_append, henv, htargets]
    simp [arcs]

/-- Witness of C13 with the real sine and cosine: in the initial state the
first target, alive at `(5, 0, -10)`, projects to a point of depth `10` and
gets a body circle of radius `40 / 10`. -/
theorem render_target_circles_witness :
    (⟨5, 0, -10, true⟩ : Target ℝ).alive = true ∧
    worldToScreen ⟨Real.sin, Real.cos, Real.tan, Real.pi⟩ (initGame (800 : ℝ) 600).player
        (initGame (800 : ℝ) 600).canvas 5 0 (-10)
      = some ⟨800 / 2 + 5 * (600 / (2 * Real.tan (1.2 / 2))) / 10, 600 / 2, 10⟩ ∧
    (drawTarget ⟨Real.sin, Real.cos, Real.tan, Real.pi⟩ (initGame (800 : ℝ) 600)
        ⟨5, 0, -10, true⟩).take 2
      = [ DrawCmd.beginPath,
          DrawCmd.arc (800 / 2 + 5 * (600 / (2 * Real.tan (1.2 / 2))) / 10) (600 / 2)
            (40 / 10) 0 (Real.pi * 2) ] :=
  ⟨rfl, by simp [worldToScreen, initGame, initPlayer],
    by
      rw [(render_target_circles ⟨Real.sin, Real.cos, Real.tan, Real.pi⟩
        (initGame (800 : ℝ) 600)).2.2.2.1 ⟨5, 0, -10, true⟩
        ⟨800 / 2 + 5 * (600 / (2 * Real.tan (1.2 / 2))) / 10, 600 / 2, 10⟩ rfl
        (by simp [worldToScreen, initGame, initPlayer])]
      rfl⟩

/-- C15: for every player pose and every box, `render` issues for the box the
commands of `drawBox`; when the four corners `(x ± w/2, y ± h/2, z - d/2)` all
project to non-null points, these are the style assignment of line 126 and the
closed polygon through the four projected corners in the order `(-,-)`,
`(+,-)`, `(+,+)`, `(-,+)`, filled and stroked; when any corner projects to
`null`, only the style assignment is issued and nothing is drawn; so the face
is filled if and only if all four corners project. -/
theorem render_box_front_face (M : JSMath F) (g : Game F) (box : Box F) :
    render M g
      = [ DrawCmd.clearRect 0 0 g.canvas.width g.canvas.height,
          DrawCmd.fillStyle "#444",
          DrawCmd.fillRect 0 (g.canvas.height / 2) g.canvas.width (g.canvas.height / 2) ]
        ++ g.environment.flatMap (drawBox M g) ++ g.targets.flatMap (drawTarget M g) ∧
    (∀ p0 p1 p2 p3 : ScreenPoint F,
      worldToScreen M g.player g.canvas (box.x - box.w / 2) (box.y - box.h / 2)
        (box.z - box.d / 2) = some p0 →
      worldToScreen M g.player g.canvas (box.x + box.w / 2) (box.y - box.h / 2)
        (box.z - box.d / 2) = some p1 →
      worldToScreen M g.player g.canvas (box.x + box.w / 2) (box.y + box.h / 2)
        (box.z - box.d / 2) = some p2 →
      worldToScreen M g.player g.canvas (box.x - box.w / 2) (box.y + box.h / 2)
        (box.z - box.d / 2) = some p3 →
      drawBox M g box
        = [ DrawCmd.fillStyle "#666",
            DrawCmd.beginPath,
            DrawCmd.moveTo p0.x p0.y,
            DrawCmd.lineTo p1.x p1.y,
            DrawCmd.lineTo p2.x p2.y,
            DrawCmd.lineTo p3.x p3.y,
            DrawCmd.closePath,
            DrawCmd.fill,
            DrawCmd.strokeStyle "#222",
            DrawCmd.stroke ]) ∧
    ((worldToScreen M g.player g.canvas (box.x - box.w / 2) (box.y - box.h / 2)
          (box.z - box.d / 2) = none ∨
        worldToScreen M g.player g.canvas (box.x + box.w / 2) (box.y - box.h / 2)
          (box.z - box.d / 2) = none ∨
        worldToScreen M g.player g.canvas (box.x + box.w / 2) (box.y + box.h / 2)
          (box.z - box.d / 2) = none ∨
        worldToScreen M g.player g.canvas (box.x - box.w / 2) (box.y + box.h / 2)
          (box.z - box.d / 2) = none) →
      drawBox M g box = [DrawCmd.fillStyle "#666"]) ∧
    (DrawCmd.fill ∈ drawBox M g box ↔
      (worldToScreen M g.player g.canvas (box.x - box.w / 2) (box.y - box.h / 2)
          (box.z - box.d / 2)).isSome = true ∧
        (worldToScreen M g.player g.canvas (box.x + box.w / 2) (box.y - box.h / 2)
          (box.z - box.d / 2)).isSome = true ∧
        (worldToScreen M g.player g.canvas (box.x + box.w / 2) (box.y + box.h / 2)
          (box.z - box.d / 2)).isSome = true ∧
        (worldToScreen M g.player g.canvas (box.x - box.w / 2) (box.y + box.h / 2)
          (box.z - box.d / 2)).isSome = true) := by
  refine ⟨rfl, ?_, ?_, ?_⟩
  · intro p0 p1 p2 p3 h0 h1 h2 h3
    simp [drawBox, boxFaces, drawFace, h0, h1, h2, h3]
  · intro h
    rcases h with h | h | h | h <;> simp [drawBox, boxFaces, drawFace, h]
  · cases h0 : worldToScreen M g.player g.canvas (box.x - box.w / 2) (box.y - box.h / 2)
        (box.z - box.d / 2) <;>
    cases h1 : worldToScreen M g.player g.canvas (box.x + box.w / 2) (box.y - box.h / 2)
        (box.z - box.d / 2) <;>
    cases h2 : worldToScreen M g.player g.canvas (box.x + box.w / 2) (box.y + box.h / 2)
        (box.z - box.d / 2) <;>
    cases h3 : worldToScreen M g.player g.canvas (box.x - box.w / 2) (box.y + box.h / 2)
        (box.z - box.d / 2) <;>
    simp [drawBox, boxFaces, drawFace, h0, h1, h2, h3]

/-- Witness of C15 with the real sine and cosine: in the initial state the
four corners of the first box, `(3, ∓1, -7)` and `(5, ∓1, -7)`, all project,
and its face is filled; a box centred at `(0, 0, 5)`, behind the camera, has a
corner that projects to `null`, and only the style assignment is issued. -/
theorem render_box_front_face_witness :
    ((worldToScreen ⟨Real.sin, Real.cos, Real.tan, Real.pi⟩ (initGame (800 : ℝ) 600).player
          (initGame (800 : ℝ) 600).canvas
          ((⟨4, 0, -6, 2, 2, 2⟩ : Box ℝ).x - (⟨4, 0, -6, 2, 2, 2⟩ : Box ℝ).w / 2)
          ((⟨4, 0, -6, 2, 2, 2⟩ : Box ℝ).y - (⟨4, 0, -6, 2, 2, 2⟩ : Box ℝ).h / 2)
          ((⟨4, 0, -6, 2, 2, 2⟩ : Box ℝ).z - (⟨4, 0, -6, 2, 2, 2⟩ : Box ℝ).d / 2)).isSome = true ∧
      DrawCmd.fill ∈ drawBox ⟨Real.sin, Real.cos, Real.tan, Real.pi⟩ (initGame (800 : ℝ) 600)
        ⟨4, 0, -6, 2, 2, 2⟩) ∧
    (worldToScreen ⟨Real.sin, Real.cos, Real.tan, Real.pi⟩ (initGame (800 : ℝ) 600).player
          (initGame (800 : ℝ) 600).canvas
          ((⟨0, 0, 5, 2, 2, 2⟩ : Box ℝ).x - (⟨0, 0, 5, 2, 2, 2⟩ : Box ℝ).w / 2)
          ((⟨0, 0, 5, 2, 2, 2⟩ : Box ℝ).y - (⟨0, 0, 5, 2, 2, 2⟩ : Box ℝ).h / 2)
          ((⟨0, 0, 5, 2, 2, 2⟩ : Box ℝ).z - (⟨0, 0, 5, 2, 2, 2⟩ : Box ℝ).d / 2) = none ∧
      drawBox ⟨Real.sin, Real.cos, Real.tan, Real.pi⟩ (initGame (800 : ℝ) 600)
          ⟨0, 0, 5, 2, 2, 2⟩ = [DrawCmd.fillStyle "#666"]) :=
  ⟨⟨by simp [worldToScreen, initGame, initPlayer]; norm_num,
      (render_box_front_face ⟨Real.sin, Real.cos, Real.tan, Real.pi⟩ (initGame (800 : ℝ) 600)
        ⟨4, 0, -6, 2, 2, 2⟩).2.2.2.2
        ⟨by simp [worldToScreen, initGame, initPlayer]; norm_num,
          by simp [worldToScreen, initGame, initPlayer]; norm_num,
          by simp [worldToScreen, initGame, initPlayer]; norm_num,
          by simp [worldToScreen, initGame, initPlayer]; norm_num⟩⟩,
    ⟨by simp [worldToScreen, initGame, initPlayer],
      (render_box_front_face ⟨Real.sin, Real.cos, Real.tan, Real.pi⟩ (initGame (800 : ℝ) 600)
        ⟨0, 0, 5, 2, 2, 2⟩).2.2.1
        (Or.inl (by simp [worldToScreen, initGame, initPlayer]))⟩⟩

/-- Witness of C18 with the real sine and cosine: from the initial camera the
point `(3, 0, -4)`, at distance `5`, is projected with depth `4`, at most
`5`. -/
theorem camera_space_rigid_witness :
    (∀ a : ℝ, Real.sin a ^ 2 + Real.cos a ^ 2 = 1) ∧
    worldToScreen ⟨Real.sin, Real.cos, Real.tan, Real.pi⟩ (initPlayer : Player ℝ)
        ⟨800, 600⟩ 3 0 (-4)
      = some ⟨800 / 2 + 3 * (600 / (2 * Real.tan (1.2 / 2))) / 4, 600 / 2, 4⟩ ∧
    (⟨800 / 2 + 3 * (600 / (2 * Real.tan (1.2 / 2))) / 4, 600 / 2, 4⟩ : ScreenPoint ℝ).depth
      ≤ 5 :=
  ⟨Real.sin_sq_add_cos_sq, by simp [worldToScreen, initPlayer],
    ((camera_space_rigid ⟨Real.sin, Real.cos, Real.tan, Real.pi⟩ Real.sin_sq_add_cos_sq
      (initPlayer : Player ℝ) ⟨800, 600⟩ 3 0 (-4)).2
        ⟨800 / 2 + 3 * (600 / (2 * Real.tan (1.2 / 2))) / 4, 600 / 2, 4⟩
        (by simp [worldToScreen, initPlayer])).2.2 5 (by norm_num)
      (by simp [initPlayer]; norm_num)⟩

end Claims

end Script
